/-
  Verification of the Galois core: local computation graphs (LCGraph.h)
  and the ordered-lockable neighborhood managers (OrderedLockable.h).

  Shallow embedding conventions:
  * node identities and resource addresses are Nat (dense indices stand for
    the C++ pointers &nodeData[N] / NodeInfo*);
  * machine integers are Nat, with the uint64_t sentinel ~0 written out as
    2^64 - 1 where the code relies on it;
  * components of the repository that are declared or called here but whose
    definitions are outside the provided sources (FileGraph, MethodFlags,
    LockManagerBase, ThreadRWlock, GALOIS_ERROR, the allocators) are modelled
    from the specification, each marked "Modelled from the spec:".
-/
import Mathlib

/-- Modelled from the spec: the conflict-policy enumeration recognized by every
graph accessor (MethodFlags.h is not among the provided sources).  Policies:
none (no record acquired), checkRace (acquire only the target record),
checkRaceAndNeighbors (acquire target and every adjacent record during
edge-range retrieval), writeIntent (locking access additionally marked as a
write). -/
inductive MethodFlag where
  | none
  | checkRace
  | checkRaceAndNeighbors
  | writeIntent
deriving DecidableEq

/-- Modelled from the spec: whether a policy acquires the touched record at all
(the spec's policy table says only the `none` policy acquires nothing). -/
def MethodFlag.isLocking : MethodFlag → Bool
  | MethodFlag.none => false
  | _ => true

/-- Modelled from the spec: `shouldLock` is used in the sources only to guard
the eager acquisition of every adjacent node during edge-range retrieval, which
per the policy table is requested exactly by `checkRaceAndNeighbors`. -/
def shouldLock : MethodFlag → Bool
  | MethodFlag.checkRaceAndNeighbors => true
  | _ => false

/-- Modelled from the spec: `Galois::Runtime::acquire(x, mflag)` acquires the
ownership record of `x` when the policy locks; the embedding returns the list
of records acquired by the call (records are named by node index). -/
def acquire (x : Nat) (mflag : MethodFlag) : List Nat :=
  if mflag.isLocking then [x] else []

/-- Modelled from the spec: the external structural graph (`FileGraph`), a
read-only graph exposing node count, edge count, per-node neighbor ranges in a
fixed order, and per-edge payload keyed by position.  `adj` lists, for each
node in construction order, its out-neighbors paired with edge payloads. -/
structure FileGraph where
  adj : List (List (Nat × Nat))
deriving DecidableEq

def FileGraph.size (g : FileGraph) : Nat := g.adj.length

def FileGraph.degrees (g : FileGraph) : List Nat := g.adj.map (fun es => es.length)

def FileGraph.sizeEdges (g : FileGraph) : Nat := g.degrees.sum

def FileGraph.neighbors (g : FileGraph) (n : Nat) : List Nat :=
  (g.adj.getD n []).map (fun p => p.1)

/-- Inclusive prefix-sum scan: entry n is the sum of the first n+1 inputs.
Used to model the structural graph's edge-offset-per-node array
(`edge_id_begin .. edge_id_end`). -/
def inclScan (acc : Nat) : List Nat → List Nat
  | [] => []
  | d :: ds => (acc + d) :: inclScan (acc + d) ds

def FileGraph.edgeIds (g : FileGraph) : List Nat := inclScan 0 g.degrees

def FileGraph.nodeIds (g : FileGraph) : List Nat :=
  g.adj.flatten.map (fun p => p.1)

def FileGraph.edgeDatas (g : FileGraph) : List Nat :=
  g.adj.flatten.map (fun p => p.2)

/-- The uint64_t sentinel `~static_cast<uint64_t>(0)` returned by getEdgeIdx. -/
def UINT64_MAX : Nat := 2 ^ 64 - 1

/-- LC_CSR_Graph: three parallel dense arrays (edge-offset-per-node,
edge-destination-per-edge, edge-payload-per-edge); node payload is not
modelled (default-constructed, never consulted by the verified claims). -/
structure LC_CSR_Graph where
  edgeIndData : List Nat
  edgeDst : List Nat
  edgeData : List Nat
  numNodes : Nat
  numEdges : Nat
deriving DecidableEq

/-- LC_CSR_Graph::structureFromGraph: copies counts, the per-node edge-offset
array and the destination array, and the edge payload array, from the
structural graph. -/
def LC_CSR_Graph.structureFromGraph (g : FileGraph) : LC_CSR_Graph :=
  { numNodes := g.size
    numEdges := g.sizeEdges
    edgeIndData := g.edgeIds
    edgeDst := g.nodeIds
    edgeData := g.edgeDatas }

def LC_CSR_Graph.size (c : LC_CSR_Graph) : Nat := c.numNodes

def LC_CSR_Graph.sizeEdges (c : LC_CSR_Graph) : Nat := c.numEdges

def LC_CSR_Graph.raw_neighbor_begin (c : LC_CSR_Graph) (N : Nat) : Nat :=
  if N = 0 then 0 else c.edgeIndData.getD (N - 1) 0

def LC_CSR_Graph.raw_neighbor_end (c : LC_CSR_Graph) (N : Nat) : Nat :=
  c.edgeIndData.getD N 0

def LC_CSR_Graph.getEdgeDst (c : LC_CSR_Graph) (ni : Nat) : Nat :=
  c.edgeDst.getD ni 0

def LC_CSR_Graph.getEdgeData (c : LC_CSR_Graph) (ni : Nat) : Nat :=
  c.edgeData.getD ni 0

/-- The edge range of node N as the list of edge-iterator positions
`edge_begin N .. edge_end N` (boost::counting_iterator over uint64_t). -/
def LC_CSR_Graph.edgeRange (c : LC_CSR_Graph) (N : Nat) : List Nat :=
  List.range' (c.raw_neighbor_begin N) (c.raw_neighbor_end N - c.raw_neighbor_begin N)

/-- LC_CSR_Graph::edge_begin: acquires the node record per the policy, then,
when `shouldLock`, eagerly acquires the record of every adjacent node; returns
the begin iterator position paired with the list of records acquired. -/
def LC_CSR_Graph.edge_begin (c : LC_CSR_Graph) (N : Nat) (mflag : MethodFlag) :
    Nat × List Nat :=
  (c.raw_neighbor_begin N,
    acquire N mflag ++
      (if shouldLock mflag then (c.edgeRange N).map (fun ii => c.edgeDst.getD ii 0) else []))

/-- LC_CSR_Graph::edge_end: acquires the node record per the policy and returns
the end iterator position paired with the records acquired. -/
def LC_CSR_Graph.edge_end (c : LC_CSR_Graph) (N : Nat) (mflag : MethodFlag) :
    Nat × List Nat :=
  (c.raw_neighbor_end N, acquire N mflag)

/-- LC_CSR_Graph::getEdgeIdx: scans node src's edge slots for destination dst,
returning the first matching slot index, or the uint64_t sentinel. -/
def LC_CSR_Graph.getEdgeIdx (c : LC_CSR_Graph) (src dst : Nat) : Nat :=
  match (c.edgeRange src).find? (fun ii => c.edgeDst.getD ii 0 == dst) with
  | some ii => ii
  | Option.none => UINT64_MAX

/-- LC_CSR_Graph::hasNeighbor: true iff getEdgeIdx does not return the
sentinel.  The body contains no acquire call, so the list of records acquired
is empty whatever the mflag argument (which the body ignores). -/
def LC_CSR_Graph.hasNeighbor (c : LC_CSR_Graph) (src dst : Nat) (_mflag : MethodFlag) :
    Bool × List Nat :=
  (c.getEdgeIdx src dst != UINT64_MAX, [])

/-- Insertion into a sorted list by a boolean comparator; building block of the
comparison sort modelling std::sort (whose concrete algorithm the standard
leaves open). -/
def sortInsert (le : α → α → Bool) (x : α) : List α → List α
  | [] => [x]
  | y :: ys => if le x y then x :: y :: ys else y :: sortInsert le x ys

/-- Comparison sort modelling std::sort over the EdgeSortIterator range: yields
a permutation of the input ordered by the comparator. -/
def sortList (le : α → α → Bool) : List α → List α
  | [] => []
  | x :: xs => sortInsert le x (sortList le xs)

/-- LC_CSR_Graph::sortEdgesByEdgeData: sorts the (destination, payload) pairs
of node N's edge segment in place by payload using comparator comp; the
EdgeSortIterator swaps destination and payload slots in tandem, so positions
outside the segment are untouched. -/
def LC_CSR_Graph.sortEdgesByEdgeData (c : LC_CSR_Graph) (N : Nat)
    (comp : Nat → Nat → Bool) : LC_CSR_Graph :=
  let b := c.raw_neighbor_begin N
  let e := c.raw_neighbor_end N
  let seg := ((c.edgeDst.drop b).take (e - b)).zip ((c.edgeData.drop b).take (e - b))
  let sorted := sortList (fun p q => comp p.2 q.2) seg
  { c with
    edgeDst := c.edgeDst.take b ++ sorted.map Prod.fst ++ c.edgeDst.drop (b + seg.length)
    edgeData := c.edgeData.take b ++ sorted.map Prod.snd ++ c.edgeData.drop (b + seg.length) }

/-- The in-edge storage materialized from a separately supplied transpose
structural graph (InOutGraphImpl::InEdges::initialize(FileGraph&)). -/
structure InEdgesStore where
  edgeIndDataStore : List Nat
  edgeDstStore : List Nat
  edgeDataStore : List Nat
deriving DecidableEq

def InEdgesStore.initialize (transpose : FileGraph) : InEdgesStore :=
  { edgeIndDataStore := transpose.edgeIds
    edgeDstStore := transpose.nodeIds
    edgeDataStore := transpose.edgeDatas }

structure LC_CSR_InOutGraph where
  super : LC_CSR_Graph
  inEdges : InEdgesStore
deriving DecidableEq

/-- LC_CSR_InOutGraph::structureFromGraph(graph, transpose): fails fatally
(GALOIS_ERROR, modelled from the spec as an aborting, descriptive error) when
the forward and transpose structural graphs disagree on node or edge counts,
before any storage is laid out; otherwise lays out the forward CSR arrays and
materializes the transpose. -/
def LC_CSR_InOutGraph.structureFromGraph (graph transpose : FileGraph) :
    Except String LC_CSR_InOutGraph :=
  if graph.size ≠ transpose.size then
    Except.error "number of nodes in graph and its transpose do not match"
  else if graph.sizeEdges ≠ transpose.sizeEdges then
    Except.error "number of edges in graph and its transpose do not match"
  else
    Except.ok
      { super := LC_CSR_Graph.structureFromGraph graph
        inEdges := InEdgesStore.initialize transpose }

/-- Per-node (edgeBegin, edgeEnd) cursor ranges laid out by the single pass of
LC_CSRInline_Graph::structureFromGraph: curEdge starts at the arena base and
advances by one per edge of each node in construction order. -/
def inlineRanges (cur : Nat) : List Nat → List (Nat × Nat)
  | [] => []
  | d :: ds => (cur, cur + d) :: inlineRanges (cur + d) ds

/-- LC_CSRInline_Graph: node records delimit contiguous runs of inline edge
records (destination, payload) in one arena; destinations are stored as
node_ids entries, i.e. node indices. -/
structure LC_CSRInline_Graph where
  edgeData : List (Nat × Nat)
  nodeRanges : List (Nat × Nat)
  numNodes : Nat
  numEdges : Nat
deriving DecidableEq

def LC_CSRInline_Graph.structureFromGraph (g : FileGraph) : LC_CSRInline_Graph :=
  { edgeData := g.adj.flatten
    nodeRanges := inlineRanges 0 g.degrees
    numNodes := g.size
    numEdges := g.sizeEdges }

/-- Destination sequence of node n in the inline layout: the arena slice
delimited by the node's (edgeBegin, edgeEnd) pointer pair. -/
def LC_CSRInline_Graph.dsts (c : LC_CSRInline_Graph) (n : Nat) : List Nat :=
  let r := c.nodeRanges.getD n (0, 0)
  ((c.edgeData.drop r.1).take (r.2 - r.1)).map Prod.fst

/-- LC_Linear_Graph: one contiguous blob per node holding the node record (its
numEdges field) followed by its edge records; the nodes array maps the dense
index to the blob.  First pass constructs node records with their edge counts,
second pass fills in the edge records (destination index, payload). -/
structure LC_Linear_Graph where
  nodes : List (Nat × List (Nat × Nat))
  numNodes : Nat
  numEdges : Nat
deriving DecidableEq

def LC_Linear_Graph.structureFromGraph (g : FileGraph) : LC_Linear_Graph :=
  { nodes := g.adj.map (fun es => (es.length, es))
    numNodes := g.size
    numEdges := g.sizeEdges }

def LC_Linear_Graph.dsts (c : LC_Linear_Graph) (n : Nat) : List Nat :=
  (c.nodes.getD n (0, [])).2.map Prod.fst

/-- One iteration bundle of LC_Numa_Graph::distribute's inner scan, fuel-indexed
so that fuel = n - i: starting at node i with accumulated size cur, either cut
at the first node where cur has reached the threshold (checked before adding
that node's weight, as at the top of the C++ loop), or exhaust the node range
returning the accumulated size. -/
def scanCutF (w : Nat → Nat) (thr : Nat) : Nat → Nat → Nat → Option Nat × Nat
  | 0, _, cur => (Option.none, cur)
  | fuel + 1, i, cur =>
    if thr ≤ cur then (some i, cur) else scanCutF w thr fuel (i + 1) (cur + w i)

/-- LC_Numa_Graph::distribute: the per-thread contiguous chunks [begin, end) of
the node range.  Threads 0..num-2 cut greedily at cumulative thresholds
(tid+1)*blockSize; a thread whose scan exhausts the range is left unassigned by
the C++ (its DistributeInfo is never written) and is modelled as an empty
chunk, matching the early return for zero-node chunks in AllocateNodes; the
last thread takes everything after the last cut. -/
def distLoop (w : Nat → Nat) (n bs : Nat) : Nat → Nat → Nat → Nat → Nat → List (Nat × Nat)
  | _, last, _, _, 0 => [(last, n)]
  | ii, last, cur, tid, k + 1 =>
    match scanCutF w ((tid + 1) * bs) (n - ii) ii cur with
    | (some c, cur2) => (last, c) :: distLoop w n bs c c cur2 (tid + 1) k
    | (Option.none, cur2) => (last, last) :: distLoop w n bs n last cur2 (tid + 1) k

/-- AllocateNodes and AllocateEdges for one chunk: every node index in
[b, e) gets its blob (numEdges field and edge records).  The blob content
depends only on the node index, so the parallel chunk writes are modelled as a
fold writing each index of the chunk. -/
def writeRange (blob : Nat → α) (b e : Nat) (nodes : List (Option α)) : List (Option α) :=
  (List.range' b (e - b)).foldl (fun ns i => ns.set i (some (blob i))) nodes

/-- LC_Numa_Graph: per-worker-affine arenas of linear-packed blobs; `nodes`
maps the dense index to the blob laid out by whichever chunk covers it (none
models storage never written by any chunk). -/
structure LC_Numa_Graph where
  nodes : List (Option (Nat × List (Nat × Nat)))
  numNodes : Nat
  numEdges : Nat

/-- LC_Numa_Graph::structureFromGraph, parameterized by the record sizes
sizeof(NodeInfo) and sizeof(EdgeInfo) and by the active thread count num:
distribute computes the chunks from total weighted cost, then AllocateNodes
and AllocateEdges lay out each chunk's blobs. -/
def LC_Numa_Graph.structureFromGraph (g : FileGraph) (nodeSize edgeSize num : Nat) :
    LC_Numa_Graph :=
  let n := g.size
  let total := nodeSize * n + edgeSize * g.sizeEdges
  let bs := total / num
  let w := fun i => nodeSize + edgeSize * (g.adj.getD i []).length
  let chunks := distLoop w n bs 0 0 0 0 (num - 1)
  let blob := fun i => ((g.adj.getD i []).length, g.adj.getD i [])
  { nodes := chunks.foldl (fun ns r => writeRange blob r.1 r.2 ns) (List.replicate n Option.none)
    numNodes := n
    numEdges := g.sizeEdges }

def LC_Numa_Graph.dsts (c : LC_Numa_Graph) (n : Nat) : List Nat :=
  match c.nodes.getD n Option.none with
  | some b => b.2.map Prod.fst
  | Option.none => []

/-- Sorted view of a destination sequence, used for the cross-layout
(node, sorted edge-destination multiset) observation. -/
def sortedDsts (l : List Nat) : List Nat := sortList Nat.ble l

/-- Modelled from the spec: LockManagerBase::CASowner(l, NULL) (LockManagerBase
is not among the provided sources): a single compare-and-swap transitioning the
owner slot from unowned to the caller, succeeding iff the slot was unowned.
Takes the caller identity and the slot's current value; returns (success, new
slot value). -/
def CASowner (self : Nat) (slot : Option Nat) : Bool × Option Nat :=
  match slot with
  | Option.none => (true, some self)
  | some o => (false, some o)

/-- OrdLocBase::tryMappingTo(l): `return Base::CASowner(l, NULL)`. -/
def tryMappingTo (self : Nat) (slot : Option Nat) : Bool × Option Nat :=
  CASowner self slot

/-- A race of K contexts each performing one tryMappingTo CAS on the same owner
slot: since each attempt is a single atomic step, an arbitrary concurrent
execution is an arbitrary arrival order, folded left over the slot. -/
def raceClaims : List Nat → Option Nat → List Bool × Option Nat
  | [], slot => ([], slot)
  | ctx :: ctxs, slot =>
    let r := tryMappingTo ctx slot
    let rest := raceClaims ctxs r.2
    (r.1 :: rest.1, rest.2)

/-- Program counter of one thread executing PtrBasedNhoodMgr::getNhoodItem:
start (about to read NItem::getOwner(l) for the null check), doCAS ni (holding
the freshly created candidate record ni, about to run tryMappingTo), readRet
(about to read NItem::getOwner(l) to build the returned reference), done ret
(returned record ret). -/
inductive PtrPC where
  | start
  | doCAS (ni : Nat)
  | readRet
  | done (ret : Nat)
deriving DecidableEq

/-- Shared state plus thread pool for the pointer-indexed manager: `owner` is
the per-lockable CAS slot (NItem::getOwner), `allNItems` the published record
bag, `live` the records currently held by the fixed-size allocator, `nextId`
the allocation counter (the allocator hands out fresh identities), `threads`
the per-thread target address and program counter. -/
structure PtrConf where
  owner : Nat → Option Nat
  allNItems : List Nat
  live : List Nat
  nextId : Nat
  threads : List (Nat × PtrPC)

/-- Interleaved small-step semantics of concurrent PtrBasedNhoodMgr::
getNhoodItem calls: each constructor is one atomic access of the C++ body (the
initial owner read combined with the thread-local allocation, the CAS, the
losing destruction, the final owner read). -/
inductive PtrStep : PtrConf → PtrConf → Prop where
  | checkOwned (c : PtrConf) (i l r : Nat)
      (ht : c.threads[i]? = some (l, PtrPC.start))
      (ho : c.owner l = some r) :
      PtrStep c { c with threads := c.threads.set i (l, PtrPC.readRet) }
  | checkFree (c : PtrConf) (i l : Nat)
      (ht : c.threads[i]? = some (l, PtrPC.start))
      (ho : c.owner l = Option.none) :
      PtrStep c { c with
        live := c.nextId :: c.live
        nextId := c.nextId + 1
        threads := c.threads.set i (l, PtrPC.doCAS c.nextId) }
  | casWin (c : PtrConf) (i l ni : Nat)
      (ht : c.threads[i]? = some (l, PtrPC.doCAS ni))
      (ho : c.owner l = Option.none) :
      PtrStep c { c with
        owner := fun x => if x = l then some ni else c.owner x
        allNItems := ni :: c.allNItems
        threads := c.threads.set i (l, PtrPC.readRet) }
  | casLose (c : PtrConf) (i l ni w : Nat)
      (ht : c.threads[i]? = some (l, PtrPC.doCAS ni))
      (ho : c.owner l = some w) :
      PtrStep c { c with
        live := c.live.filter (fun x => x != ni)
        threads := c.threads.set i (l, PtrPC.readRet) }
  | retStep (c : PtrConf) (i l r : Nat)
      (ht : c.threads[i]? = some (l, PtrPC.readRet))
      (ho : c.owner l = some r) :
      PtrStep c { c with threads := c.threads.set i (l, PtrPC.done r) }

/-- Program counter of one thread executing MapBasedNhoodMgr::getNhoodItem:
mstart (about to look up under the read lock), mwrite (missed; about to run the
double-checked create-and-insert under the write lock), mreread (about to
re-take the read lock and look up for the returned reference), mdone ret. -/
inductive MapPC where
  | mstart
  | mwrite
  | mreread
  | mdone (ret : Nat)
deriving DecidableEq

/-- Shared state plus thread pool for the map-indexed manager: `nhoodMap` is
the lock-protected associative map from lockable address to record. -/
structure MapConf where
  nhoodMap : Nat → Option Nat
  allNItems : List Nat
  nextId : Nat
  threads : List (Nat × MapPC)

/-- Interleaved small-step semantics of concurrent MapBasedNhoodMgr::
getNhoodItem calls.  Reads under the read lock are atomic; the whole
create-and-insert critical section under the write lock is one atomic step
(the ThreadRWlock, modelled from the spec, serializes writers and excludes
readers while a writer holds the lock). -/
inductive MapStep : MapConf → MapConf → Prop where
  | findHit (c : MapConf) (i l r : Nat)
      (ht : c.threads[i]? = some (l, MapPC.mstart))
      (hm : c.nhoodMap l = some r) :
      MapStep c { c with threads := c.threads.set i (l, MapPC.mdone r) }
  | findMiss (c : MapConf) (i l : Nat)
      (ht : c.threads[i]? = some (l, MapPC.mstart))
      (hm : c.nhoodMap l = Option.none) :
      MapStep c { c with threads := c.threads.set i (l, MapPC.mwrite) }
  | writeCreate (c : MapConf) (i l : Nat)
      (ht : c.threads[i]? = some (l, MapPC.mwrite))
      (hm : c.nhoodMap l = Option.none) :
      MapStep c { c with
        nhoodMap := fun x => if x = l then some c.nextId else c.nhoodMap x
        allNItems := c.nextId :: c.allNItems
        nextId := c.nextId + 1
        threads := c.threads.set i (l, MapPC.mreread) }
  | writeSkip (c : MapConf) (i l r : Nat)
      (ht : c.threads[i]? = some (l, MapPC.mwrite))
      (hm : c.nhoodMap l = some r) :
      MapStep c { c with threads := c.threads.set i (l, MapPC.mreread) }
  | rereadStep (c : MapConf) (i l r : Nat)
      (ht : c.threads[i]? = some (l, MapPC.mreread))
      (hm : c.nhoodMap l = some r) :
      MapStep c { c with threads := c.threads.set i (l, MapPC.mdone r) }

/-- Sequential state of a PtrBasedNhoodMgr between phases: the per-lockable
owner slots, the per-record claiming Execution Context (modelled from the
spec: an Ownership Record holds a reference to the current claiming context or
none, set by tryClaim and cleared by release), the allocator-live records, the
published bag (record, bound lockable) and the allocation counter. -/
structure PtrSeqMgr where
  owner : Nat → Option Nat
  claimant : Nat → Option Nat
  live : List Nat
  allNItems : List (Nat × Nat)
  nextId : Nat

/-- Sequential PtrBasedNhoodMgr::getNhoodItem: on a null owner slot, create a
fresh record (constructed with no claiming context), CAS it in (which cannot
fail sequentially), publish it; return the owner slot's record. -/
def PtrSeqMgr.getNhoodItem (s : PtrSeqMgr) (l : Nat) : Nat × PtrSeqMgr :=
  match s.owner l with
  | some r => (r, s)
  | Option.none =>
    let ni := s.nextId
    (ni,
      { owner := fun x => if x = l then some ni else s.owner x
        claimant := fun j => if j = ni then Option.none else s.claimant j
        live := ni :: s.live
        allNItems := (ni, l) :: s.allNItems
        nextId := ni + 1 })

/-- Modelled from the spec: tryClaim atomically transitions the record's
claiming-context field from none to the calling context, succeeding iff no
context currently claims it. -/
def PtrSeqMgr.tryClaim (s : PtrSeqMgr) (ni ctx : Nat) : Bool × PtrSeqMgr :=
  match s.claimant ni with
  | Option.none =>
    (true, { s with claimant := fun j => if j = ni then some ctx else s.claimant j })
  | some _ => (false, s)

/-- Modelled from the spec: release clears the record's claiming context
(caller contract: the caller holds the claim). -/
def PtrSeqMgr.releaseRecord (s : PtrSeqMgr) (ni : Nat) : PtrSeqMgr :=
  { s with claimant := fun j => if j = ni then Option.none else s.claimant j }

/-- PtrBasedNhoodMgr::resetAllNItems: for every published record, clearMapping
(release the bound lockable's owner slot) and destroy (return the record to
the allocator).  The published bag itself is not cleared by the C++. -/
def PtrSeqMgr.resetAllNItems (s : PtrSeqMgr) : PtrSeqMgr :=
  s.allNItems.foldl
    (fun t p =>
      { t with
        owner := fun x => if x = p.2 then Option.none else t.owner x
        live := t.live.filter (fun x => x != p.1) })
    s

/-- Sequential state of a MapBasedNhoodMgr: the unordered_map is an
association list (latest insertion first); records carry claiming contexts as
in the pointer variant.  The lockable owner slots are untouched by this
variant (tryMappingTo is never called; clearMapping's tryLock/release pair is
a net no-op on an unowned slot). -/
structure MapSeqMgr where
  nhoodMap : List (Nat × Nat)
  claimant : Nat → Option Nat
  live : List Nat
  allNItems : List (Nat × Nat)
  nextId : Nat

/-- Sequential MapBasedNhoodMgr::getNhoodItem: look up; on a miss, create a
fresh unclaimed record, publish it, insert it, and return the re-read entry. -/
def MapSeqMgr.getNhoodItem (s : MapSeqMgr) (l : Nat) : Nat × MapSeqMgr :=
  match s.nhoodMap.lookup l with
  | some ni => (ni, s)
  | Option.none =>
    let ni := s.nextId
    (ni,
      { nhoodMap := (l, ni) :: s.nhoodMap
        claimant := fun j => if j = ni then Option.none else s.claimant j
        live := ni :: s.live
        allNItems := (ni, l) :: s.allNItems
        nextId := ni + 1 })

/-- Modelled from the spec: tryClaim for the map variant's records. -/
def MapSeqMgr.tryClaim (s : MapSeqMgr) (ni ctx : Nat) : Bool × MapSeqMgr :=
  match s.claimant ni with
  | Option.none =>
    (true, { s with claimant := fun j => if j = ni then some ctx else s.claimant j })
  | some _ => (false, s)

/-- Modelled from the spec: release for the map variant's records. -/
def MapSeqMgr.releaseRecord (s : MapSeqMgr) (ni : Nat) : MapSeqMgr :=
  { s with claimant := fun j => if j = ni then Option.none else s.claimant j }

/-- The reset inherited by MapBasedNhoodMgr (Base::resetAllNItems): destroys
every published record (clearMapping acts on the unused lockable slots, a
no-op here), but never erases the nhoodMap entries pointing at them. -/
def MapSeqMgr.resetAllNItems (s : MapSeqMgr) : MapSeqMgr :=
  s.allNItems.foldl
    (fun t p => { t with live := t.live.filter (fun x => x != p.1) })
    s

/-- The (destination, payload) pair sequence of node N's edge segment, the
observable against which edge sorting is checked. -/
def LC_CSR_Graph.edgePairs (c : LC_CSR_Graph) (N : Nat) : List (Nat × Nat) :=
  ((c.edgeDst.drop (c.raw_neighbor_begin N)).take
      (c.raw_neighbor_end N - c.raw_neighbor_begin N)).zip
    ((c.edgeData.drop (c.raw_neighbor_begin N)).take
      (c.raw_neighbor_end N - c.raw_neighbor_begin N))

/-- The concrete 4-node structural graph of the spec scenario: edges
0 to 1 (weight 5), 0 to 2 (weight 1), 1 to 2 (weight 3), 2 to 3 (weight 2). -/
def fg9 : FileGraph := { adj := [[(1, 5), (2, 1)], [(2, 3)], [(3, 2)], []] }

/-- A freshly constructed pointer-indexed manager: no owner slots bound, no
records allocated. -/
def initPtrMgr : PtrSeqMgr :=
  { owner := fun _ => Option.none, claimant := fun _ => Option.none,
    live := [], allNItems := [], nextId := 0 }

/-- A freshly constructed map-indexed manager. -/
def initMapMgr : MapSeqMgr :=
  { nhoodMap := [], claimant := fun _ => Option.none,
    live := [], allNItems := [], nextId := 0 }

/-- The spec scenario up to the reset, pointer-indexed variant: get the record
for r, claim it from ctx, release it, then resetAllNItems. -/
def ptrAfterReset (s : PtrSeqMgr) (r ctx : Nat) : PtrSeqMgr :=
  let p := s.getNhoodItem r
  let s2 := (p.2.tryClaim p.1 ctx).2
  let s3 := s2.releaseRecord p.1
  s3.resetAllNItems

/-- The full spec scenario, pointer-indexed variant: the post-reset
getNhoodItem call for the previously claimed-then-released resource. -/
def ptrResetScenario (s : PtrSeqMgr) (r ctx : Nat) : Nat × PtrSeqMgr :=
  (ptrAfterReset s r ctx).getNhoodItem r

/-- The spec scenario up to the reset, map-indexed variant. -/
def mapAfterReset (m : MapSeqMgr) (r ctx : Nat) : MapSeqMgr :=
  let p := m.getNhoodItem r
  let m2 := (p.2.tryClaim p.1 ctx).2
  let m3 := m2.releaseRecord p.1
  m3.resetAllNItems

/-- The full spec scenario, map-indexed variant. -/
def mapResetScenario (m : MapSeqMgr) (r ctx : Nat) : Nat × MapSeqMgr :=
  (mapAfterReset m r ctx).getNhoodItem r

theorem inclScan_length (a : Nat) (ds : List Nat) : (inclScan a ds).length = ds.length := by
  induction ds generalizing a with
  | nil => rfl
  | cons d ds ih => simp [inclScan, ih]

theorem inclScan_getD (ds : List Nat) (a i : Nat) (h : i < ds.length) :
    (inclScan a ds).getD i 0 = a + (ds.take (i + 1)).sum := by
  induction ds generalizing a i with
  | nil => simp at h
  | cons d ds ih =>
    cases i with
    | zero => simp [inclScan]
    | succ j =>
      have hj : j < ds.length := by simpa using h
      have hstep : (inclScan a (d :: ds)).getD (j + 1) 0 = (inclScan (a + d) ds).getD j 0 := by
        simp [inclScan]
      rw [hstep, ih (a + d) j hj]
      show a + d + (ds.take (j + 1)).sum = a + ((d :: ds).take (j + 1 + 1)).sum
      rw [List.take_succ_cons, List.sum_cons]
      omega

theorem degrees_eq_map_length (g : FileGraph) : g.degrees = g.adj.map List.length := rfl

theorem degrees_length (g : FileGraph) : g.degrees.length = g.size := by
  simp [FileGraph.degrees, FileGraph.size]

theorem csr_raw_begin (g : FileGraph) (n : Nat) (h : n ≤ g.size) :
    (LC_CSR_Graph.structureFromGraph g).raw_neighbor_begin n = (g.degrees.take n).sum := by
  unfold LC_CSR_Graph.structureFromGraph LC_CSR_Graph.raw_neighbor_begin FileGraph.edgeIds
  cases n with
  | zero => simp
  | succ m =>
    have hm : m < g.degrees.length := by
      rw [degrees_length]; omega
    have hh := inclScan_getD g.degrees 0 m hm
    simpa using hh

theorem csr_raw_end (g : FileGraph) (n : Nat) (h : n < g.size) :
    (LC_CSR_Graph.structureFromGraph g).raw_neighbor_end n = (g.degrees.take (n + 1)).sum := by
  unfold LC_CSR_Graph.structureFromGraph LC_CSR_Graph.raw_neighbor_end FileGraph.edgeIds
  have hn : n < g.degrees.length := by rw [degrees_length]; omega
  have hh := inclScan_getD g.degrees 0 n hn
  simpa using hh

theorem degrees_take_succ (g : FileGraph) (n : Nat) (h : n < g.size) :
    (g.degrees.take (n + 1)).sum = (g.degrees.take n).sum + (g.adj.getD n []).length := by
  have hn : n < g.degrees.length := by rw [degrees_length]; omega
  rw [List.sum_take_succ _ _ hn]
  have hadj : n < g.adj.length := h
  have h1 : g.degrees[n]? = some ((g.adj.getD n []).length) := by
    rw [degrees_eq_map_length, List.getElem?_map, List.getElem?_eq_getElem hadj]
    simp [List.getD_eq_getElem?_getD, List.getElem?_eq_getElem hadj]
  have h3 := List.getElem?_eq_getElem hn
  rw [h1] at h3
  rw [← Option.some.inj h3]

theorem degrees_take_le_sizeEdges (g : FileGraph) (n : Nat) :
    (g.degrees.take n).sum ≤ g.sizeEdges := by
  have := List.sum_take_add_sum_drop g.degrees n
  unfold FileGraph.sizeEdges
  omega

theorem slice_flatten (L : List (List α)) (n : Nat) (h : n < L.length) :
    ((L.flatten.drop ((L.map List.length).take n).sum).take (L.getD n []).length)
      = L.getD n [] := by
  have hn : n < (L.map List.length).length := by simpa using h
  have hA : ((L.map List.length).take n).sum + (L.getD n []).length
      = ((L.map List.length).take (n + 1)).sum := by
    rw [List.sum_take_succ _ _ hn]
    congr 1
    simp [List.getD_eq_getElem?_getD, List.getElem?_eq_getElem h]
  rw [List.take_drop, hA, List.drop_take_succ_flatten_eq_getElem L n h]
  simp [List.getD_eq_getElem?_getD, List.getElem?_eq_getElem h]

theorem range'_map_getD (xs : List α) (d : α) (k : Nat) :
    ∀ b : Nat, b + k ≤ xs.length →
    (List.range' b k).map (fun i => xs.getD i d) = (xs.drop b).take k := by
  induction k with
  | zero => intro b _; simp
  | succ m ih =>
    intro b hbk
    have hb : b < xs.length := by omega
    rw [List.range'_succ, List.map_cons, ih (b + 1) (by omega),
      List.drop_eq_getElem_cons hb, List.take_succ_cons]
    congr 1
    simp [List.getD_eq_getElem?_getD, List.getElem?_eq_getElem hb]

theorem flatten_length_eq_sum (g : FileGraph) : g.adj.flatten.length = g.sizeEdges := by
  rw [List.length_flatten]
  rfl

/-- Core correspondence for the flat-CSR layout: for every in-range node, the
edge range has exactly the structural neighbor count, and reading getEdgeDst
across it yields the structural neighbor sequence in order. -/
theorem csr_edges_eq (g : FileGraph) (n : Nat) (h : n < g.size) :
    (LC_CSR_Graph.structureFromGraph g).raw_neighbor_end n
        - (LC_CSR_Graph.structureFromGraph g).raw_neighbor_begin n
      = (g.neighbors n).length ∧
    ((LC_CSR_Graph.structureFromGraph g).edgeRange n).map
        (fun ii => (LC_CSR_Graph.structureFromGraph g).getEdgeDst ii)
      = g.neighbors n := by
  have hb := csr_raw_begin g n (Nat.le_of_lt h)
  have he := csr_raw_end g n h
  have hstep := degrees_take_succ g n h
  have hlen : (g.neighbors n).length = (g.adj.getD n []).length := by
    simp [FileGraph.neighbors]
  have hBle := degrees_take_le_sizeEdges g (n + 1)
  have hdiff : (LC_CSR_Graph.structureFromGraph g).raw_neighbor_end n
      - (LC_CSR_Graph.structureFromGraph g).raw_neighbor_begin n
      = (g.adj.getD n []).length := by
    rw [hb, he]; omega
  refine ⟨by rw [hdiff, hlen], ?_⟩
  have hdstlen : (LC_CSR_Graph.structureFromGraph g).edgeDst.length = g.sizeEdges := by
    show g.nodeIds.length = g.sizeEdges
    unfold FileGraph.nodeIds
    rw [List.length_map, flatten_length_eq_sum]
  unfold LC_CSR_Graph.edgeRange
  rw [hdiff]
  simp only [LC_CSR_Graph.getEdgeDst]
  rw [range'_map_getD _ 0 _ _ (by rw [hdstlen, hb]; omega)]
  show ((g.nodeIds.drop ((LC_CSR_Graph.structureFromGraph g).raw_neighbor_begin n)).take
      (g.adj.getD n []).length) = g.neighbors n
  rw [hb]
  unfold FileGraph.nodeIds
  rw [← List.map_drop, ← List.map_take, degrees_eq_map_length]
  have hslice := slice_flatten g.adj n h
  rw [hslice]
  rfl

theorem inlineRanges_getD (ds : List Nat) (c n : Nat) (h : n < ds.length) :
    (inlineRanges c ds).getD n (0, 0) = (c + (ds.take n).sum, c + (ds.take (n + 1)).sum) := by
  induction ds generalizing c n with
  | nil => simp at h
  | cons d ds ih =>
    cases n with
    | zero =>
      show (c, c + d) = (c + ([] : List Nat).sum, c + ((d :: ds).take 1).sum)
      simp
    | succ j =>
      have hj : j < ds.length := by simpa using h
      have hstep : (inlineRanges c (d :: ds)).getD (j + 1) (0, 0)
          = (inlineRanges (c + d) ds).getD j (0, 0) := by
        simp [inlineRanges]
      rw [hstep, ih (c + d) j hj]
      show (c + d + (ds.take j).sum, c + d + (ds.take (j + 1)).sum)
        = (c + ((d :: ds).take (j + 1)).sum, c + ((d :: ds).take (j + 1 + 1)).sum)
      rw [List.take_succ_cons, List.take_succ_cons, List.sum_cons, List.sum_cons]
      simp only [Prod.mk.injEq]
      omega

theorem inline_dsts_eq (g : FileGraph) (n : Nat) (h : n < g.size) :
    (LC_CSRInline_Graph.structureFromGraph g).dsts n = g.neighbors n := by
  simp only [LC_CSRInline_Graph.structureFromGraph, LC_CSRInline_Graph.dsts]
  have hd : n < g.degrees.length := by rw [degrees_length]; omega
  rw [inlineRanges_getD g.degrees 0 n hd]
  simp only [Nat.zero_add]
  have hstep := degrees_take_succ g n h
  have hdiff : (g.degrees.take (n + 1)).sum - (g.degrees.take n).sum
      = (g.adj.getD n []).length := by omega
  rw [hdiff, degrees_eq_map_length, slice_flatten g.adj n h]
  rfl

theorem linear_dsts_eq (g : FileGraph) (n : Nat) (h : n < g.size) :
    (LC_Linear_Graph.structureFromGraph g).dsts n = g.neighbors n := by
  simp only [LC_Linear_Graph.structureFromGraph, LC_Linear_Graph.dsts]
  have hadj : n < g.adj.length := h
  have h1 : (g.adj.map (fun es => (es.length, es))).getD n (0, [])
      = ((g.adj.getD n []).length, g.adj.getD n []) := by
    simp [List.getD_eq_getElem?_getD, List.getElem?_map, List.getElem?_eq_getElem hadj]
  rw [h1]
  rfl

theorem scanCutF_some_bounds (w : Nat → Nat) (thr : Nat) :
    ∀ (fuel i cur c cur2 : Nat), scanCutF w thr fuel i cur = (some c, cur2) →
      i ≤ c ∧ c < i + fuel := by
  intro fuel
  induction fuel with
  | zero =>
    intro i cur c cur2 hc
    simp [scanCutF] at hc
  | succ m ih =>
    intro i cur c cur2 hc
    simp only [scanCutF] at hc
    by_cases hth : thr ≤ cur
    · rw [if_pos hth] at hc
      have h1 : some i = some c := congrArg Prod.fst hc
      have h2 : i = c := Option.some.inj h1
      omega
    · rw [if_neg hth] at hc
      have := ih (i + 1) (cur + w i) c cur2 hc
      omega

theorem distLoop_covers (w : Nat → Nat) (n bs : Nat) :
    ∀ (k ii last cur tid x : Nat), last ≤ ii → ii ≤ n → last ≤ x → x < n →
      ∃ r ∈ distLoop w n bs ii last cur tid k, r.1 ≤ x ∧ x < r.2 := by
  intro k
  induction k with
  | zero =>
    intro ii last cur tid x h1 h2 h3 h4
    exact ⟨(last, n), by simp [distLoop], h3, h4⟩
  | succ m ih =>
    intro ii last cur tid x h1 h2 h3 h4
    rcases hsc : scanCutF w ((tid + 1) * bs) (n - ii) ii cur with ⟨oc, cur2⟩
    cases oc with
    | some c =>
      have hb := scanCutF_some_bounds w ((tid + 1) * bs) (n - ii) ii cur c cur2 hsc
      by_cases hx : x < c
      · exact ⟨(last, c), by simp [distLoop, hsc], h3, hx⟩
      · have ⟨r, hr, hr1, hr2⟩ := ih c c cur2 (tid + 1) x (Nat.le_refl c) (by omega) (by omega) h4
        exact ⟨r, by simp [distLoop, hsc]; right; exact hr, hr1, hr2⟩
    | none =>
      have ⟨r, hr, hr1, hr2⟩ := ih n last cur2 (tid + 1) x (by omega) (Nat.le_refl n) h3 h4
      exact ⟨r, by simp [distLoop, hsc]; right; exact hr, hr1, hr2⟩

theorem foldl_set_length (blob : Nat → α) (L : List Nat) :
    ∀ ns : List (Option α),
      (L.foldl (fun ms j => ms.set j (some (blob j))) ns).length = ns.length := by
  induction L with
  | nil => intro ns; rfl
  | cons j L ih =>
    intro ns
    rw [List.foldl_cons, ih]
    simp

theorem foldl_set_getD (blob : Nat → α) (L : List Nat) :
    ∀ (ns : List (Option α)) (i : Nat),
      (L.foldl (fun ms j => ms.set j (some (blob j))) ns).getD i Option.none
      = if i ∈ L ∧ i < ns.length then some (blob i) else ns.getD i Option.none := by
  induction L with
  | nil => intro ns i; simp
  | cons j L ih =>
    intro ns i
    rw [List.foldl_cons, ih]
    by_cases h1 : i ∈ L ∧ i < ns.length
    · rw [if_pos (by simpa using h1), if_pos ⟨List.mem_cons_of_mem j h1.1, h1.2⟩]
    · rw [if_neg (by simpa using h1)]
      by_cases h2 : i = j ∧ i < ns.length
      · have hset : (ns.set j (some (blob j))).getD i Option.none = some (blob i) := by
          rcases h2 with ⟨rfl, hlt⟩
          simp [List.getD_eq_getElem?_getD, List.getElem?_set_self hlt]
        rw [hset, if_pos ⟨by simp [h2.1], h2.2⟩]
      · have hset : (ns.set j (some (blob j))).getD i Option.none
            = ns.getD i Option.none := by
          by_cases hij : i = j
          · have hge : ns.length ≤ i := by
              rcases Nat.lt_or_ge i ns.length with hlt | hge
              · exact absurd ⟨hij, hlt⟩ h2
              · exact hge
            rw [List.set_eq_of_length_le (by omega)]
          · simp [List.getD_eq_getElem?_getD, List.getElem?_set_ne (fun hh => hij hh.symm)]
        rw [hset]
        by_cases h3 : i ∈ j :: L ∧ i < ns.length
        · rcases List.mem_cons.mp h3.1 with hij | hiL
          · exact absurd ⟨hij, h3.2⟩ h2
          · exact absurd ⟨hiL, h3.2⟩ h1
        · rw [if_neg h3]

theorem writeRange_length (blob : Nat → α) (b e : Nat) (ns : List (Option α)) :
    (writeRange blob b e ns).length = ns.length :=
  foldl_set_length blob (List.range' b (e - b)) ns

theorem writeRange_getD (blob : Nat → α) (b e : Nat) (ns : List (Option α)) (i : Nat) :
    (writeRange blob b e ns).getD i Option.none
      = if b ≤ i ∧ i < e ∧ i < ns.length then some (blob i)
        else ns.getD i Option.none := by
  unfold writeRange
  rw [foldl_set_getD]
  by_cases hc : b ≤ i ∧ i < e ∧ i < ns.length
  · rw [if_pos ⟨List.mem_range'_1.mpr ⟨hc.1, by omega⟩, hc.2.2⟩, if_pos hc]
  · rw [if_neg hc]
    by_cases hm : i ∈ List.range' b (e - b) ∧ i < ns.length
    · have := List.mem_range'_1.mp hm.1
      exact absurd ⟨this.1, by omega, hm.2⟩ hc
    · rw [if_neg hm]

theorem chunks_foldl_getD (blob : Nat → α) (n : Nat) :
    ∀ (chunks : List (Nat × Nat)) (ns : List (Option α)), ns.length = n →
      ∀ i : Nat, i < n →
      ((∃ r ∈ chunks, r.1 ≤ i ∧ i < r.2) ∨ ns.getD i Option.none = some (blob i)) →
      (chunks.foldl (fun ms r => writeRange blob r.1 r.2 ms) ns).getD i Option.none
        = some (blob i) := by
  intro chunks
  induction chunks with
  | nil =>
    intro ns hlen i hi hcov
    rcases hcov with ⟨r, hr, _⟩ | hsome
    · exact absurd hr (List.not_mem_nil r)
    · exact hsome
  | cons r rest ih =>
    intro ns hlen i hi hcov
    rw [List.foldl_cons]
    apply ih (writeRange blob r.1 r.2 ns) (by rw [writeRange_length, hlen]) i hi
    rcases hcov with ⟨q, hq, hq1, hq2⟩ | hsome
    · rcases List.mem_cons.mp hq with hqr | hqrest
      · right
        rw [writeRange_getD]
        have hq1r : r.1 ≤ i := hqr ▸ hq1
        have hq2r : i < r.2 := hqr ▸ hq2
        rw [if_pos ⟨hq1r, hq2r, by omega⟩]
      · exact Or.inl ⟨q, hqrest, hq1, hq2⟩
    · right
      rw [writeRange_getD]
      by_cases hc : r.1 ≤ i ∧ i < r.2 ∧ i < ns.length
      · rw [if_pos hc]
      · rw [if_neg hc]; exact hsome

theorem numa_dsts_eq (g : FileGraph) (nodeSize edgeSize num n : Nat) (h : n < g.size) :
    (LC_Numa_Graph.structureFromGraph g nodeSize edgeSize num).dsts n = g.neighbors n := by
  simp only [LC_Numa_Graph.structureFromGraph, LC_Numa_Graph.dsts]
  have hcov := distLoop_covers (fun i => nodeSize + edgeSize * (g.adj.getD i []).length)
      g.size ((nodeSize * g.size + edgeSize * g.sizeEdges) / num)
      (num - 1) 0 0 0 0 n (Nat.le_refl 0) (Nat.zero_le _) (Nat.zero_le _) h
  have hget := chunks_foldl_getD (fun i => ((g.adj.getD i []).length, g.adj.getD i []))
      g.size
      (distLoop (fun i => nodeSize + edgeSize * (g.adj.getD i []).length)
        g.size ((nodeSize * g.size + edgeSize * g.sizeEdges) / num) 0 0 0 0 (num - 1))
      (List.replicate g.size Option.none) (by simp) n h (Or.inl hcov)
  rw [hget]
  rfl

theorem sortInsert_perm (le : α → α → Bool) (x : α) (l : List α) :
    (sortInsert le x l).Perm (x :: l) := by
  induction l with
  | nil => exact List.Perm.refl [x]
  | cons y ys ih =>
    by_cases h : le x y
    · simp [sortInsert, h]
    · simp only [sortInsert, if_neg h]
      exact (ih.cons y).trans (List.Perm.swap x y ys)

theorem sortList_perm (le : α → α → Bool) (l : List α) : (sortList le l).Perm l := by
  induction l with
  | nil => exact List.Perm.refl []
  | cons x xs ih =>
    exact (sortInsert_perm le x (sortList le xs)).trans (ih.cons x)

theorem zip_map_fst_snd_eq (l : List (α × β)) :
    (l.map Prod.fst).zip (l.map Prod.snd) = l := by
  induction l with
  | nil => rfl
  | cons p ps ih => simp [ih]

theorem splice_slice (xs ys : List Nat) (b k m : Nat) (hb : b ≤ xs.length)
    (hy : ys.length = m) :
    ((xs.take b ++ ys ++ xs.drop (b + k)).drop b).take m = ys := by
  have h1 : (xs.take b).length = b := by rw [List.length_take]; omega
  rw [List.append_assoc, List.drop_left' h1, List.take_left' hy]

/-- C5: for every structural graph loaded into LC_CSR_Graph and every node n,
the range edge_begin(n)..edge_end(n) has exactly as many edges as the
structural graph has neighbors of n, and mapping getEdgeDst over that range
yields the structural neighbor sequence in the same order (whatever the
conflict policy, which does not affect the iterator positions). -/
theorem c5_csr_edge_range_matches_structure (g : FileGraph) (n : Nat)
    (mflag : MethodFlag) (h : n < g.size) :
    ((LC_CSR_Graph.structureFromGraph g).edge_end n mflag).1
        - ((LC_CSR_Graph.structureFromGraph g).edge_begin n mflag).1
      = (g.neighbors n).length ∧
    (List.range' ((LC_CSR_Graph.structureFromGraph g).edge_begin n mflag).1
        (((LC_CSR_Graph.structureFromGraph g).edge_end n mflag).1
          - ((LC_CSR_Graph.structureFromGraph g).edge_begin n mflag).1)).map
        (fun ii => (LC_CSR_Graph.structureFromGraph g).getEdgeDst ii)
      = g.neighbors n := by
  have hc := csr_edges_eq g n h
  exact ⟨hc.1, hc.2⟩

theorem c5_witness :
    0 < fg9.size ∧
    (((LC_CSR_Graph.structureFromGraph fg9).edge_end 0 MethodFlag.checkRace).1
        - ((LC_CSR_Graph.structureFromGraph fg9).edge_begin 0 MethodFlag.checkRace).1
      = (fg9.neighbors 0).length ∧
    (List.range' ((LC_CSR_Graph.structureFromGraph fg9).edge_begin 0 MethodFlag.checkRace).1
        (((LC_CSR_Graph.structureFromGraph fg9).edge_end 0 MethodFlag.checkRace).1
          - ((LC_CSR_Graph.structureFromGraph fg9).edge_begin 0 MethodFlag.checkRace).1)).map
        (fun ii => (LC_CSR_Graph.structureFromGraph fg9).getEdgeDst ii)
      = fg9.neighbors 0) :=
  ⟨by decide, c5_csr_edge_range_matches_structure fg9 0 MethodFlag.checkRace (by decide)⟩

/-- C6: loading the same structural graph into the four physical layouts
yields, for every node, the same sorted multiset of edge destinations: the
flat-CSR, inline-CSR, linear-packed and NUMA-distributed loads agree on
topology (for any record sizes and any positive worker count). -/
theorem c6_four_layouts_agree_on_topology (g : FileGraph)
    (nodeSize edgeSize num n : Nat) (hnum : 1 ≤ num) (h : n < g.size) :
    sortedDsts (((LC_CSR_Graph.structureFromGraph g).edgeRange n).map
        (fun ii => (LC_CSR_Graph.structureFromGraph g).getEdgeDst ii))
      = sortedDsts ((LC_CSRInline_Graph.structureFromGraph g).dsts n) ∧
    sortedDsts (((LC_CSR_Graph.structureFromGraph g).edgeRange n).map
        (fun ii => (LC_CSR_Graph.structureFromGraph g).getEdgeDst ii))
      = sortedDsts ((LC_Linear_Graph.structureFromGraph g).dsts n) ∧
    sortedDsts (((LC_CSR_Graph.structureFromGraph g).edgeRange n).map
        (fun ii => (LC_CSR_Graph.structureFromGraph g).getEdgeDst ii))
      = sortedDsts ((LC_Numa_Graph.structureFromGraph g nodeSize edgeSize num).dsts n) := by
  rw [(csr_edges_eq g n h).2, inline_dsts_eq g n h, linear_dsts_eq g n h,
    numa_dsts_eq g nodeSize edgeSize num n h]
  exact ⟨rfl, rfl, rfl⟩

theorem c6_witness :
    1 ≤ 2 ∧ 0 < fg9.size ∧
    (sortedDsts (((LC_CSR_Graph.structureFromGraph fg9).edgeRange 0).map
        (fun ii => (LC_CSR_Graph.structureFromGraph fg9).getEdgeDst ii))
      = sortedDsts ((LC_CSRInline_Graph.structureFromGraph fg9).dsts 0) ∧
    sortedDsts (((LC_CSR_Graph.structureFromGraph fg9).edgeRange 0).map
        (fun ii => (LC_CSR_Graph.structureFromGraph fg9).getEdgeDst ii))
      = sortedDsts ((LC_Linear_Graph.structureFromGraph fg9).dsts 0) ∧
    sortedDsts (((LC_CSR_Graph.structureFromGraph fg9).edgeRange 0).map
        (fun ii => (LC_CSR_Graph.structureFromGraph fg9).getEdgeDst ii))
      = sortedDsts ((LC_Numa_Graph.structureFromGraph fg9 16 8 2).dsts 0)) :=
  ⟨by decide, by decide,
    c6_four_layouts_agree_on_topology fg9 16 8 2 0 (by decide) (by decide)⟩

/-- C7: with policy checkRace the edge-range accessor acquires only the target
node's ownership record (likewise edge_end); the adjacent nodes' records are
additionally acquired exactly under checkRaceAndNeighbors; with policy none no
record is acquired at all. -/
theorem c7_edge_accessor_acquisitions (c : LC_CSR_Graph) (N : Nat) :
    (c.edge_begin N MethodFlag.checkRace).2 = [N] ∧
    (c.edge_end N MethodFlag.checkRace).2 = [N] ∧
    (c.edge_begin N MethodFlag.checkRaceAndNeighbors).2
      = N :: (c.edgeRange N).map (fun ii => c.edgeDst.getD ii 0) ∧
    (c.edge_begin N MethodFlag.none).2 = [] ∧
    (c.edge_end N MethodFlag.none).2 = [] := by
  exact ⟨rfl, rfl, rfl, rfl, rfl⟩

/-- C8: bidirectional construction from a forward graph and a separately
supplied transpose fails fatally, before laying out any storage (the model
short-circuits before building either array set), exactly when the two
structural graphs disagree on node count or edge count; when both counts
agree, construction proceeds and lays out the forward CSR and the materialized
transpose. -/
theorem c8_inout_size_mismatch_fatal (graph transpose : FileGraph) :
    ((∃ msg, LC_CSR_InOutGraph.structureFromGraph graph transpose = Except.error msg)
      ↔ (graph.size ≠ transpose.size ∨ graph.sizeEdges ≠ transpose.sizeEdges)) ∧
    (graph.size = transpose.size → graph.sizeEdges = transpose.sizeEdges →
      LC_CSR_InOutGraph.structureFromGraph graph transpose
        = Except.ok
            { super := LC_CSR_Graph.structureFromGraph graph
              inEdges := InEdgesStore.initialize transpose }) := by
  unfold LC_CSR_InOutGraph.structureFromGraph
  by_cases h1 : graph.size = transpose.size
  · by_cases h2 : graph.sizeEdges = transpose.sizeEdges
    · rw [if_neg (by omega), if_neg (by omega)]
      constructor
      · constructor
        · rintro ⟨msg, hmsg⟩
          exact absurd hmsg (by simp)
        · intro hor
          rcases hor with hh | hh
          · exact absurd h1 hh
          · exact absurd h2 hh
      · intro _ _; rfl
    · rw [if_neg (by omega), if_pos (by omega)]
      constructor
      · constructor
        · intro _; exact Or.inr h2
        · intro _; exact ⟨"number of edges in graph and its transpose do not match", rfl⟩
      · intro _ hh; exact absurd hh h2
  · rw [if_pos (by omega)]
    constructor
    · constructor
      · intro _; exact Or.inl h1
      · intro _; exact ⟨"number of nodes in graph and its transpose do not match", rfl⟩
    · intro hh; exact absurd hh h1

theorem c8_witness :
    LC_CSR_InOutGraph.structureFromGraph fg9 fg9
      = Except.ok
          { super := LC_CSR_Graph.structureFromGraph fg9
            inEdges := InEdgesStore.initialize fg9 } :=
  (c8_inout_size_mismatch_fatal fg9 fg9).2 rfl rfl

theorem csr_edgeDst_length (g : FileGraph) :
    (LC_CSR_Graph.structureFromGraph g).edgeDst.length = g.sizeEdges := by
  show g.nodeIds.length = g.sizeEdges
  unfold FileGraph.nodeIds
  rw [List.length_map, flatten_length_eq_sum]

theorem csr_edgeData_length (g : FileGraph) :
    (LC_CSR_Graph.structureFromGraph g).edgeData.length = g.sizeEdges := by
  show g.edgeDatas.length = g.sizeEdges
  unfold FileGraph.edgeDatas
  rw [List.length_map, flatten_length_eq_sum]

theorem sortEdges_pairs_eq (g : FileGraph) (N : Nat) (comp : Nat → Nat → Bool)
    (h : N < g.size) :
    ((LC_CSR_Graph.structureFromGraph g).sortEdgesByEdgeData N comp).edgePairs N
      = sortList (fun p q => comp p.2 q.2)
          ((LC_CSR_Graph.structureFromGraph g).edgePairs N) := by
  have hb := csr_raw_begin g N (Nat.le_of_lt h)
  have he := csr_raw_end g N h
  have hstep := degrees_take_succ g N h
  have hBle := degrees_take_le_sizeEdges g (N + 1)
  have hdstlen := csr_edgeDst_length g
  have hdatlen := csr_edgeData_length g
  have hble : (LC_CSR_Graph.structureFromGraph g).raw_neighbor_begin N
      ≤ (LC_CSR_Graph.structureFromGraph g).raw_neighbor_end N := by
    rw [hb, he]; omega
  have hele : (LC_CSR_Graph.structureFromGraph g).raw_neighbor_end N ≤ g.sizeEdges := by
    rw [he]; omega
  have hseglen : ((LC_CSR_Graph.structureFromGraph g).edgePairs N).length
      = (LC_CSR_Graph.structureFromGraph g).raw_neighbor_end N
        - (LC_CSR_Graph.structureFromGraph g).raw_neighbor_begin N := by
    unfold LC_CSR_Graph.edgePairs
    rw [List.length_zip, List.length_take, List.length_drop, List.length_take,
      List.length_drop, hdstlen, hdatlen]
    omega
  have hbegin2 : ((LC_CSR_Graph.structureFromGraph g).sortEdgesByEdgeData N comp).raw_neighbor_begin N
      = (LC_CSR_Graph.structureFromGraph g).raw_neighbor_begin N := rfl
  have hend2 : ((LC_CSR_Graph.structureFromGraph g).sortEdgesByEdgeData N comp).raw_neighbor_end N
      = (LC_CSR_Graph.structureFromGraph g).raw_neighbor_end N := rfl
  have hdst2 : ((LC_CSR_Graph.structureFromGraph g).sortEdgesByEdgeData N comp).edgeDst
      = (LC_CSR_Graph.structureFromGraph g).edgeDst.take
          ((LC_CSR_Graph.structureFromGraph g).raw_neighbor_begin N)
        ++ (sortList (fun p q => comp p.2 q.2)
            ((LC_CSR_Graph.structureFromGraph g).edgePairs N)).map Prod.fst
        ++ (LC_CSR_Graph.structureFromGraph g).edgeDst.drop
          ((LC_CSR_Graph.structureFromGraph g).raw_neighbor_begin N
            + ((LC_CSR_Graph.structureFromGraph g).edgePairs N).length) := rfl
  have hdat2 : ((LC_CSR_Graph.structureFromGraph g).sortEdgesByEdgeData N comp).edgeData
      = (LC_CSR_Graph.structureFromGraph g).edgeData.take
          ((LC_CSR_Graph.structureFromGraph g).raw_neighbor_begin N)
        ++ (sortList (fun p q => comp p.2 q.2)
            ((LC_CSR_Graph.structureFromGraph g).edgePairs N)).map Prod.snd
        ++ (LC_CSR_Graph.structureFromGraph g).edgeData.drop
          ((LC_CSR_Graph.structureFromGraph g).raw_neighbor_begin N
            + ((LC_CSR_Graph.structureFromGraph g).edgePairs N).length) := rfl
  have hsortlen : (sortList (fun p q => comp p.2 q.2)
      ((LC_CSR_Graph.structureFromGraph g).edgePairs N)).length
      = ((LC_CSR_Graph.structureFromGraph g).edgePairs N).length :=
    (sortList_perm _ _).length_eq
  have hLHS : ((LC_CSR_Graph.structureFromGraph g).sortEdgesByEdgeData N comp).edgePairs N
      = ((((LC_CSR_Graph.structureFromGraph g).sortEdgesByEdgeData N comp).edgeDst.drop
            (((LC_CSR_Graph.structureFromGraph g).sortEdgesByEdgeData N comp).raw_neighbor_begin N)).take
            (((LC_CSR_Graph.structureFromGraph g).sortEdgesByEdgeData N comp).raw_neighbor_end N
              - ((LC_CSR_Graph.structureFromGraph g).sortEdgesByEdgeData N comp).raw_neighbor_begin N)).zip
          ((((LC_CSR_Graph.structureFromGraph g).sortEdgesByEdgeData N comp).edgeData.drop
            (((LC_CSR_Graph.structureFromGraph g).sortEdgesByEdgeData N comp).raw_neighbor_begin N)).take
            (((LC_CSR_Graph.structureFromGraph g).sortEdgesByEdgeData N comp).raw_neighbor_end N
              - ((LC_CSR_Graph.structureFromGraph g).sortEdgesByEdgeData N comp).raw_neighbor_begin N)) := rfl
  rw [hLHS, hbegin2, hend2, hdst2, hdat2]
  rw [splice_slice _ _ _ _ _ (by rw [hdstlen]; omega)
    (by rw [List.length_map, hsortlen, hseglen])]
  rw [splice_slice _ _ _ _ _ (by rw [hdatlen]; omega)
    (by rw [List.length_map, hsortlen, hseglen])]
  rw [zip_map_fst_snd_eq]

/-- C9: on the concrete 4-node graph with edges 0 to 1 (weight 5), 0 to 2
(weight 1), 1 to 2 (weight 3), 2 to 3 (weight 2) loaded into flat CSR,
size() = 4, sizeEdges() = 4, the edge range of node 0 yields destinations
[1, 2] with payloads [5, 1]; after sortEdgesByEdgeData(0, ascending) it yields
destinations [2, 1] with payloads [1, 5]; and in general sorting a node's
edges by payload permutes the (destination, payload) pairs together, keeping
every destination paired with its original payload. -/
theorem c9_sort_scenario_and_pairing :
    (LC_CSR_Graph.structureFromGraph fg9).size = 4 ∧
    (LC_CSR_Graph.structureFromGraph fg9).sizeEdges = 4 ∧
    ((LC_CSR_Graph.structureFromGraph fg9).edgeRange 0).map
        (fun ii => (LC_CSR_Graph.structureFromGraph fg9).getEdgeDst ii) = [1, 2] ∧
    ((LC_CSR_Graph.structureFromGraph fg9).edgeRange 0).map
        (fun ii => (LC_CSR_Graph.structureFromGraph fg9).getEdgeData ii) = [5, 1] ∧
    (((LC_CSR_Graph.structureFromGraph fg9).sortEdgesByEdgeData 0 Nat.ble).edgeRange 0).map
        (fun ii => ((LC_CSR_Graph.structureFromGraph fg9).sortEdgesByEdgeData 0 Nat.ble).getEdgeDst ii)
      = [2, 1] ∧
    (((LC_CSR_Graph.structureFromGraph fg9).sortEdgesByEdgeData 0 Nat.ble).edgeRange 0).map
        (fun ii => ((LC_CSR_Graph.structureFromGraph fg9).sortEdgesByEdgeData 0 Nat.ble).getEdgeData ii)
      = [1, 5] ∧
    (∀ (g : FileGraph) (N : Nat) (comp : Nat → Nat → Bool), N < g.size →
      (((LC_CSR_Graph.structureFromGraph g).sortEdgesByEdgeData N comp).edgePairs N).Perm
        ((LC_CSR_Graph.structureFromGraph g).edgePairs N)) := by
  refine ⟨by decide, by decide, by decide, by decide, by decide, by decide, ?_⟩
  intro g N comp h
  rw [sortEdges_pairs_eq g N comp h]
  exact sortList_perm _ _

theorem c9_witness :
    0 < fg9.size ∧
    (((LC_CSR_Graph.structureFromGraph fg9).sortEdgesByEdgeData 0 Nat.ble).edgePairs 0).Perm
      ((LC_CSR_Graph.structureFromGraph fg9).edgePairs 0) :=
  ⟨by decide,
    c9_sort_scenario_and_pairing.2.2.2.2.2.2 fg9 0 Nat.ble (by decide)⟩

/-- C10: hasNeighbor(src, dst, mflag) on a loaded CSR graph returns true iff
some out-edge of src has destination dst (for graphs whose edge count stays
below the uint64_t sentinel), and it acquires no ownership record whatever the
conflict-policy argument. -/
theorem c10_hasNeighbor_iff_and_lockfree (g : FileGraph) (src dst : Nat)
    (mflag : MethodFlag) (hsrc : src < g.size) (hedges : g.sizeEdges < UINT64_MAX) :
    (((LC_CSR_Graph.structureFromGraph g).hasNeighbor src dst mflag).1 = true
      ↔ dst ∈ g.neighbors src) ∧
    ((LC_CSR_Graph.structureFromGraph g).hasNeighbor src dst mflag).2 = [] := by
  refine ⟨?_, rfl⟩
  have hnbr := (csr_edges_eq g src hsrc).2
  have hend := csr_raw_end g src hsrc
  have hBle := degrees_take_le_sizeEdges g (src + 1)
  show ((LC_CSR_Graph.structureFromGraph g).getEdgeIdx src dst != UINT64_MAX) = true
      ↔ dst ∈ g.neighbors src
  unfold LC_CSR_Graph.getEdgeIdx
  rcases hf : ((LC_CSR_Graph.structureFromGraph g).edgeRange src).find?
      (fun ii => (LC_CSR_Graph.structureFromGraph g).edgeDst.getD ii 0 == dst) with _ | ii
  · constructor
    · intro htrue
      simp at htrue
    · intro hmem
      rw [← hnbr] at hmem
      rcases List.mem_map.mp hmem with ⟨ii, hii, hdst⟩
      have := List.find?_eq_none.mp hf ii hii
      exact absurd (by simpa [LC_CSR_Graph.getEdgeDst] using hdst) this
  · constructor
    · intro _
      have hp := List.find?_some hf
      have hmem := List.mem_of_find?_eq_some hf
      rw [← hnbr]
      refine List.mem_map.mpr ⟨ii, hmem, ?_⟩
      simpa [LC_CSR_Graph.getEdgeDst] using hp
    · intro _
      have hmem := List.mem_of_find?_eq_some hf
      have hlt : ii < (LC_CSR_Graph.structureFromGraph g).raw_neighbor_end src := by
        have := List.mem_range'_1.mp hmem
        omega
      have hne : ii ≠ UINT64_MAX := by
        rw [hend] at hlt
        unfold UINT64_MAX at hedges ⊢
        omega
      simpa using hne

theorem c10_witness :
    0 < fg9.size ∧ fg9.sizeEdges < UINT64_MAX ∧
    ((((LC_CSR_Graph.structureFromGraph fg9).hasNeighbor 0 2 MethodFlag.checkRace).1 = true
      ↔ 2 ∈ fg9.neighbors 0) ∧
    ((LC_CSR_Graph.structureFromGraph fg9).hasNeighbor 0 2 MethodFlag.checkRace).2 = []) :=
  ⟨by decide, by decide,
    c10_hasNeighbor_iff_and_lockfree fg9 0 2 MethodFlag.checkRace (by decide) (by decide)⟩

theorem raceClaims_owned (ctxs : List Nat) (o : Nat) :
    raceClaims ctxs (some o) = (List.replicate ctxs.length false, some o) := by
  induction ctxs with
  | nil => rfl
  | cons c cs ih => simp [raceClaims, tryMappingTo, CASowner, ih, List.replicate]

/-- C2: for K distinct execution contexts racing tryMappingTo (one CAS each,
in an arbitrary arrival order) on an unowned slot, exactly one attempt
succeeds and the other K-1 fail; moreover after every nonempty prefix of
attempts the slot is held by exactly the one winner (the first arriver), so at
most one context holds the claim at any instant. -/
theorem c2_exactly_one_cas_wins (c : Nat) (ctxs : List Nat) :
    ((raceClaims (c :: ctxs) Option.none).1.count true = 1) ∧
    ((raceClaims (c :: ctxs) Option.none).1.count false = (c :: ctxs).length - 1) ∧
    (∀ k, 1 ≤ k → (raceClaims ((c :: ctxs).take k) Option.none).2 = some c) := by
  have hrun : raceClaims (c :: ctxs) Option.none
      = (true :: List.replicate ctxs.length false, some c) := by
    simp [raceClaims, tryMappingTo, CASowner, raceClaims_owned]
  refine ⟨?_, ?_, ?_⟩
  · rw [hrun]
    simp [List.count_cons, List.count_replicate]
  · rw [hrun]
    simp [List.count_cons, List.count_replicate]
  · intro k hk
    cases k with
    | zero => omega
    | succ m =>
      rw [List.take_succ_cons]
      simp [raceClaims, tryMappingTo, CASowner, raceClaims_owned]

theorem c2_witness :
    ((raceClaims [7, 8, 9] Option.none).1.count true = 1) ∧
    ((raceClaims [7, 8, 9] Option.none).1.count false = 2) ∧
    (raceClaims ([7, 8, 9].take 2) Option.none).2 = some 7 :=
  ⟨(c2_exactly_one_cas_wins 7 [8, 9]).1,
   (c2_exactly_one_cas_wins 7 [8, 9]).2.1,
   (c2_exactly_one_cas_wins 7 [8, 9]).2.2 2 (by decide)⟩

theorem getElem?_lt_length {l : List α} {i : Nat} {a : α} (h : l[i]? = some a) :
    i < l.length := by
  rcases List.getElem?_eq_some_iff.mp h with ⟨hl, _⟩
  exact hl

theorem ptrStep_owner_mono {c c2 : PtrConf} (h : PtrStep c c2) (l r : Nat)
    (ho : c.owner l = some r) : c2.owner l = some r := by
  cases h with
  | checkOwned i l0 r0 ht ho0 => exact ho
  | checkFree i l0 ht ho0 => exact ho
  | casWin i l0 ni ht ho0 =>
    show (fun x => if x = l0 then some ni else c.owner x) l = some r
    by_cases hl : l = l0
    · rw [hl, ho0] at ho
      cases ho
    · simp only [if_neg hl]
      exact ho
  | casLose i l0 ni w ht ho0 => exact ho
  | retStep i l0 r0 ht ho0 => exact ho

theorem ptrStep_done_inv {c c2 : PtrConf} (h : PtrStep c c2)
    (hinv : ∀ (i l r : Nat), c.threads[i]? = some (l, PtrPC.done r) → c.owner l = some r) :
    ∀ (i l r : Nat), c2.threads[i]? = some (l, PtrPC.done r) → c2.owner l = some r := by
  intro i l r hthread
  cases h with
  | checkOwned k l0 r0 ht ho0 =>
    rw [List.getElem?_set] at hthread
    by_cases hki : k = i
    · rw [if_pos hki, if_pos (getElem?_lt_length ht)] at hthread
      simp at hthread
    · rw [if_neg hki] at hthread
      exact hinv i l r hthread
  | checkFree k l0 ht ho0 =>
    rw [List.getElem?_set] at hthread
    by_cases hki : k = i
    · rw [if_pos hki, if_pos (getElem?_lt_length ht)] at hthread
      simp at hthread
    · rw [if_neg hki] at hthread
      exact hinv i l r hthread
  | casWin k l0 ni ht ho0 =>
    rw [List.getElem?_set] at hthread
    show (fun x => if x = l0 then some ni else c.owner x) l = some r
    by_cases hki : k = i
    · rw [if_pos hki, if_pos (getElem?_lt_length ht)] at hthread
      simp at hthread
    · rw [if_neg hki] at hthread
      have hc := hinv i l r hthread
      by_cases hl : l = l0
      · rw [hl, ho0] at hc
        cases hc
      · simp only [if_neg hl]
        exact hc
  | casLose k l0 ni w ht ho0 =>
    rw [List.getElem?_set] at hthread
    by_cases hki : k = i
    · rw [if_pos hki, if_pos (getElem?_lt_length ht)] at hthread
      simp at hthread
    · rw [if_neg hki] at hthread
      exact hinv i l r hthread
  | retStep k l0 r0 ht ho0 =>
    rw [List.getElem?_set] at hthread
    by_cases hki : k = i
    · rw [if_pos hki, if_pos (getElem?_lt_length ht)] at hthread
      have h1 : l0 = l ∧ r0 = r := by
        have := Option.some.inj hthread
        constructor
        · exact congrArg Prod.fst this
        · have h2 := congrArg Prod.snd this
          simp at h2
          exact h2
      rw [← h1.1, ← h1.2]
      exact ho0
    · rw [if_neg hki] at hthread
      exact hinv i l r hthread

theorem ptr_reach_done_inv {c0 c : PtrConf}
    (hreach : Relation.ReflTransGen PtrStep c0 c)
    (hinit : ∀ t ∈ c0.threads, t.2 = PtrPC.start) :
    ∀ (i l r : Nat), c.threads[i]? = some (l, PtrPC.done r) → c.owner l = some r := by
  induction hreach with
  | refl =>
    intro i l r hthread
    have hmem := List.getElem?_mem hthread
    have := hinit _ hmem
    simp at this
  | tail h1 h2 ih => exact ptrStep_done_inv h2 ih

theorem mapStep_done_inv {c c2 : MapConf} (h : MapStep c c2)
    (hinv : ∀ (i l r : Nat), c.threads[i]? = some (l, MapPC.mdone r) → c.nhoodMap l = some r) :
    ∀ (i l r : Nat), c2.threads[i]? = some (l, MapPC.mdone r) → c2.nhoodMap l = some r := by
  intro i l r hthread
  cases h with
  | findHit k l0 r0 ht hm0 =>
    rw [List.getElem?_set] at hthread
    by_cases hki : k = i
    · rw [if_pos hki, if_pos (getElem?_lt_length ht)] at hthread
      have h1 := Option.some.inj hthread
      have hl : l0 = l := congrArg Prod.fst h1
      have hr : r0 = r := by
        have h2 := congrArg Prod.snd h1
        simp at h2
        exact h2
      rw [← hl, ← hr]
      exact hm0
    · rw [if_neg hki] at hthread
      exact hinv i l r hthread
  | findMiss k l0 ht hm0 =>
    rw [List.getElem?_set] at hthread
    by_cases hki : k = i
    · rw [if_pos hki, if_pos (getElem?_lt_length ht)] at hthread
      simp at hthread
    · rw [if_neg hki] at hthread
      exact hinv i l r hthread
  | writeCreate k l0 ht hm0 =>
    rw [List.getElem?_set] at hthread
    show (fun x => if x = l0 then some c.nextId else c.nhoodMap x) l = some r
    by_cases hki : k = i
    · rw [if_pos hki, if_pos (getElem?_lt_length ht)] at hthread
      simp at hthread
    · rw [if_neg hki] at hthread
      have hc := hinv i l r hthread
      by_cases hl : l = l0
      · rw [hl, hm0] at hc
        cases hc
      · simp only [if_neg hl]
        exact hc
  | writeSkip k l0 r0 ht hm0 =>
    rw [List.getElem?_set] at hthread
    by_cases hki : k = i
    · rw [if_pos hki, if_pos (getElem?_lt_length ht)] at hthread
      simp at hthread
    · rw [if_neg hki] at hthread
      exact hinv i l r hthread
  | rereadStep k l0 r0 ht hm0 =>
    rw [List.getElem?_set] at hthread
    by_cases hki : k = i
    · rw [if_pos hki, if_pos (getElem?_lt_length ht)] at hthread
      have h1 := Option.some.inj hthread
      have hl : l0 = l := congrArg Prod.fst h1
      have hr : r0 = r := by
        have h2 := congrArg Prod.snd h1
        simp at h2
        exact h2
      rw [← hl, ← hr]
      exact hm0
    · rw [if_neg hki] at hthread
      exact hinv i l r hthread

theorem map_reach_done_inv {c0 c : MapConf}
    (hreach : Relation.ReflTransGen MapStep c0 c)
    (hinit : ∀ t ∈ c0.threads, t.2 = MapPC.mstart) :
    ∀ (i l r : Nat), c.threads[i]? = some (l, MapPC.mdone r) → c.nhoodMap l = some r := by
  induction hreach with
  | refl =>
    intro i l r hthread
    have hmem := List.getElem?_mem hthread
    have := hinit _ hmem
    simp at this
  | tail h1 h2 ih => exact mapStep_done_inv h2 ih

/-- C1: in both neighborhood-manager variants, two concurrent getNhoodItem
calls for the same address that complete (without an intervening reset, which
the step relations do not contain) return the same record: in the
pointer-indexed variant the CAS-raced owner slot, once bound, never changes,
and in the map-indexed variant the double-checked insertion under the write
lock never overwrites an existing entry. -/
theorem c1_unique_live_record_per_address :
    (∀ (c0 c : PtrConf) (i j l r1 r2 : Nat),
      (∀ t ∈ c0.threads, t.2 = PtrPC.start) →
      Relation.ReflTransGen PtrStep c0 c →
      c.threads[i]? = some (l, PtrPC.done r1) →
      c.threads[j]? = some (l, PtrPC.done r2) → r1 = r2) ∧
    (∀ (c0 c : MapConf) (i j l r1 r2 : Nat),
      (∀ t ∈ c0.threads, t.2 = MapPC.mstart) →
      Relation.ReflTransGen MapStep c0 c →
      c.threads[i]? = some (l, MapPC.mdone r1) →
      c.threads[j]? = some (l, MapPC.mdone r2) → r1 = r2) := by
  constructor
  · intro c0 c i j l r1 r2 hinit hreach h1 h2
    have hd := ptr_reach_done_inv hreach hinit
    have e1 := hd i l r1 h1
    have e2 := hd j l r2 h2
    rw [e1] at e2
    exact Option.some.inj e2
  · intro c0 c i j l r1 r2 hinit hreach h1 h2
    have hd := map_reach_done_inv hreach hinit
    have e1 := hd i l r1 h1
    have e2 := hd j l r2 h2
    rw [e1] at e2
    exact Option.some.inj e2

theorem c1_witness : (0 : Nat) = 0 ∧ (0 : Nat) = 0 := by
  constructor
  · refine c1_unique_live_record_per_address.1
      { owner := fun _ => Option.none, allNItems := [], live := [], nextId := 0,
        threads := [(5, PtrPC.start), (5, PtrPC.start)] }
      { owner := fun x => if x = 5 then some 0 else Option.none, allNItems := [0],
        live := [0], nextId := 1, threads := [(5, PtrPC.done 0), (5, PtrPC.done 0)] }
      0 1 5 0 0 (by decide) ?_ rfl rfl
    exact Relation.ReflTransGen.tail
      (Relation.ReflTransGen.tail
        (Relation.ReflTransGen.tail
          (Relation.ReflTransGen.tail
            (Relation.ReflTransGen.tail Relation.ReflTransGen.refl
              (PtrStep.checkFree _ 0 5 rfl rfl))
            (PtrStep.casWin _ 0 5 0 rfl rfl))
          (PtrStep.retStep _ 0 5 0 rfl rfl))
        (PtrStep.checkOwned _ 1 5 0 rfl rfl))
      (PtrStep.retStep _ 1 5 0 rfl rfl)
  · refine c1_unique_live_record_per_address.2
      { nhoodMap := fun _ => Option.none, allNItems := [], nextId := 0,
        threads := [(5, MapPC.mstart), (5, MapPC.mstart)] }
      { nhoodMap := fun x => if x = 5 then some 0 else Option.none, allNItems := [0],
        nextId := 1, threads := [(5, MapPC.mdone 0), (5, MapPC.mdone 0)] }
      0 1 5 0 0 (by decide) ?_ rfl rfl
    exact Relation.ReflTransGen.tail
      (Relation.ReflTransGen.tail
        (Relation.ReflTransGen.tail
          (Relation.ReflTransGen.tail Relation.ReflTransGen.refl
            (MapStep.findMiss _ 0 5 rfl rfl))
          (MapStep.writeCreate _ 0 5 rfl rfl))
        (MapStep.rereadStep _ 0 5 0 rfl rfl))
      (MapStep.findHit _ 1 5 0 rfl rfl)

theorem getElem?_set_elim {α : Type} {ts : List α} {k i : Nat} {v u : α}
    (h : (ts.set k v)[i]? = some u) :
    (k = i ∧ u = v ∧ k < ts.length) ∨ (k ≠ i ∧ ts[i]? = some u) := by
  rw [List.getElem?_set] at h
  by_cases hki : k = i
  · rw [if_pos hki] at h
    by_cases hkl : k < ts.length
    · rw [if_pos hkl] at h
      exact Or.inl ⟨hki, (Option.some.inj h).symm, hkl⟩
    · rw [if_neg hkl] at h
      cases h
  · rw [if_neg hki] at h
    exact Or.inr ⟨hki, h⟩

theorem ptrStep_fresh_inv {c c2 : PtrConf} (h : PtrStep c c2)
    (hF1 : ∀ x ∈ c.allNItems, x < c.nextId)
    (hF2 : ∀ (l2 x : Nat), c.owner l2 = some x → x < c.nextId)
    (hF3 : ∀ (i l ni : Nat), c.threads[i]? = some (l, PtrPC.doCAS ni) →
      ni < c.nextId ∧ ni ∉ c.allNItems ∧ ∀ l2, c.owner l2 ≠ some ni)
    (hF4 : ∀ (i j l l2 ni ni2 : Nat), i ≠ j →
      c.threads[i]? = some (l, PtrPC.doCAS ni) →
      c.threads[j]? = some (l2, PtrPC.doCAS ni2) → ni ≠ ni2) :
    (∀ x ∈ c2.allNItems, x < c2.nextId) ∧
    (∀ (l2 x : Nat), c2.owner l2 = some x → x < c2.nextId) ∧
    (∀ (i l ni : Nat), c2.threads[i]? = some (l, PtrPC.doCAS ni) →
      ni < c2.nextId ∧ ni ∉ c2.allNItems ∧ ∀ l2, c2.owner l2 ≠ some ni) ∧
    (∀ (i j l l2 ni ni2 : Nat), i ≠ j →
      c2.threads[i]? = some (l, PtrPC.doCAS ni) →
      c2.threads[j]? = some (l2, PtrPC.doCAS ni2) → ni ≠ ni2) := by
  cases h with
  | checkOwned k l0 r0 ht ho0 =>
    refine ⟨hF1, hF2, ?_, ?_⟩
    · intro i l ni hti
      rcases getElem?_set_elim hti with ⟨hki, huv, hkl⟩ | ⟨hki, hti2⟩
      · simp at huv
      · exact hF3 i l ni hti2
    · intro i j l l2 ni ni2 hij hti htj
      rcases getElem?_set_elim hti with ⟨hki, huv, hkl⟩ | ⟨hki, hti2⟩
      · simp at huv
      rcases getElem?_set_elim htj with ⟨hkj, huv2, hkl2⟩ | ⟨hkj, htj2⟩
      · simp at huv2
      exact hF4 i j l l2 ni ni2 hij hti2 htj2
  | checkFree k l0 ht ho0 =>
    refine ⟨?_, ?_, ?_, ?_⟩
    · intro x hx
      have := hF1 x hx
      show x < c.nextId + 1
      omega
    · intro l2 x hx
      have := hF2 l2 x hx
      show x < c.nextId + 1
      omega
    · intro i l ni hti
      rcases getElem?_set_elim hti with ⟨hki, huv, hkl⟩ | ⟨hki, hti2⟩
      · simp only [Prod.mk.injEq, PtrPC.doCAS.injEq] at huv
        refine ⟨by show ni < c.nextId + 1; omega, ?_, ?_⟩
        · intro hmem
          have := hF1 ni hmem
          omega
        · intro l2 hcon
          have := hF2 l2 ni hcon
          omega
      · rcases hF3 i l ni hti2 with ⟨h1, h2, h3⟩
        exact ⟨by show ni < c.nextId + 1; omega, h2, h3⟩
    · intro i j l l2 ni ni2 hij hti htj
      rcases getElem?_set_elim hti with ⟨hki, huv, hkl⟩ | ⟨hki, hti2⟩
      · rcases getElem?_set_elim htj with ⟨hkj, huv2, hkl2⟩ | ⟨hkj, htj2⟩
        · exact absurd (hki ▸ hkj) hij
        · simp only [Prod.mk.injEq, PtrPC.doCAS.injEq] at huv
          rcases hF3 j l2 ni2 htj2 with ⟨h1, _, _⟩
          omega
      · rcases getElem?_set_elim htj with ⟨hkj, huv2, hkl2⟩ | ⟨hkj, htj2⟩
        · simp only [Prod.mk.injEq, PtrPC.doCAS.injEq] at huv2
          rcases hF3 i l ni hti2 with ⟨h1, _, _⟩
          omega
        · exact hF4 i j l l2 ni ni2 hij hti2 htj2
  | casWin k l0 ni0 ht ho0 =>
    have hni0 := hF3 k l0 ni0 ht
    refine ⟨?_, ?_, ?_, ?_⟩
    · intro x hx
      rcases List.mem_cons.mp hx with rfl | hx2
      · exact hni0.1
      · exact hF1 x hx2
    · intro l2 x hx
      have hx2 : (fun x => if x = l0 then some ni0 else c.owner x) l2 = some x := hx
      show x < c.nextId
      by_cases hl : l2 = l0
      · rw [hl] at hx2
        simp only [if_pos rfl] at hx2
        rw [← Option.some.inj hx2]
        exact hni0.1
      · simp only [if_neg hl] at hx2
        exact hF2 l2 x hx2
    · intro i l ni hti
      rcases getElem?_set_elim hti with ⟨hki, huv, hkl⟩ | ⟨hki, hti2⟩
      · simp at huv
      · rcases hF3 i l ni hti2 with ⟨h1, h2, h3⟩
        have hne : ni ≠ ni0 := hF4 i k l l0 ni ni0 (fun hh => hki hh.symm) hti2 ht
        refine ⟨h1, ?_, ?_⟩
        · intro hmem
          rcases List.mem_cons.mp hmem with hh | hh
          · exact hne hh
          · exact h2 hh
        · intro l2
          show (fun x => if x = l0 then some ni0 else c.owner x) l2 ≠ some ni
          by_cases hl : l2 = l0
          · simp only [hl, if_pos rfl]
            intro hcon
            exact hne (Option.some.inj hcon).symm
          · simp only [if_neg hl]
            exact h3 l2
    · intro i j l l2 ni ni2 hij hti htj
      rcases getElem?_set_elim hti with ⟨hki, huv, hkl⟩ | ⟨hki, hti2⟩
      · simp at huv
      rcases getElem?_set_elim htj with ⟨hkj, huv2, hkl2⟩ | ⟨hkj, htj2⟩
      · simp at huv2
      exact hF4 i j l l2 ni ni2 hij hti2 htj2
  | casLose k l0 ni0 w ht ho0 =>
    refine ⟨hF1, hF2, ?_, ?_⟩
    · intro i l ni hti
      rcases getElem?_set_elim hti with ⟨hki, huv, hkl⟩ | ⟨hki, hti2⟩
      · simp at huv
      · exact hF3 i l ni hti2
    · intro i j l l2 ni ni2 hij hti htj
      rcases getElem?_set_elim hti with ⟨hki, huv, hkl⟩ | ⟨hki, hti2⟩
      · simp at huv
      rcases getElem?_set_elim htj with ⟨hkj, huv2, hkl2⟩ | ⟨hkj, htj2⟩
      · simp at huv2
      exact hF4 i j l l2 ni ni2 hij hti2 htj2
  | retStep k l0 r0 ht ho0 =>
    refine ⟨hF1, hF2, ?_, ?_⟩
    · intro i l ni hti
      rcases getElem?_set_elim hti with ⟨hki, huv, hkl⟩ | ⟨hki, hti2⟩
      · simp at huv
      · exact hF3 i l ni hti2
    · intro i j l l2 ni ni2 hij hti htj
      rcases getElem?_set_elim hti with ⟨hki, huv, hkl⟩ | ⟨hki, hti2⟩
      · simp at huv
      rcases getElem?_set_elim htj with ⟨hkj, huv2, hkl2⟩ | ⟨hkj, htj2⟩
      · simp at huv2
      exact hF4 i j l l2 ni ni2 hij hti2 htj2

theorem ptr_reach_fresh_inv {c0 c : PtrConf}
    (hreach : Relation.ReflTransGen PtrStep c0 c)
    (hinit : ∀ t ∈ c0.threads, t.2 = PtrPC.start)
    (hF1 : ∀ x ∈ c0.allNItems, x < c0.nextId)
    (hF2 : ∀ (l2 x : Nat), c0.owner l2 = some x → x < c0.nextId) :
    (∀ x ∈ c.allNItems, x < c.nextId) ∧
    (∀ (l2 x : Nat), c.owner l2 = some x → x < c.nextId) ∧
    (∀ (i l ni : Nat), c.threads[i]? = some (l, PtrPC.doCAS ni) →
      ni < c.nextId ∧ ni ∉ c.allNItems ∧ ∀ l2, c.owner l2 ≠ some ni) ∧
    (∀ (i j l l2 ni ni2 : Nat), i ≠ j →
      c.threads[i]? = some (l, PtrPC.doCAS ni) →
      c.threads[j]? = some (l2, PtrPC.doCAS ni2) → ni ≠ ni2) := by
  induction hreach with
  | refl =>
    refine ⟨hF1, hF2, ?_, ?_⟩
    · intro i l ni hti
      have := hinit _ (List.getElem?_mem hti)
      simp at this
    · intro i j l l2 ni ni2 hij hti htj
      have := hinit _ (List.getElem?_mem hti)
      simp at this
  | tail h1 h2 ih =>
    exact ptrStep_fresh_inv h2 ih.1 ih.2.1 ih.2.2.1 ih.2.2.2

theorem ptrStep_retired {c c2 : PtrConf} (h : PtrStep c c2) (ni : Nat)
    (h1 : ni ∉ c.allNItems) (h2 : ni < c.nextId)
    (h3 : ∀ (j l2 : Nat), c.threads[j]? ≠ some (l2, PtrPC.doCAS ni)) :
    ni ∉ c2.allNItems ∧ ni < c2.nextId ∧
      ∀ (j l2 : Nat), c2.threads[j]? ≠ some (l2, PtrPC.doCAS ni) := by
  cases h with
  | checkOwned k l0 r0 ht ho0 =>
    refine ⟨h1, h2, ?_⟩
    intro j l2 hcon
    rcases getElem?_set_elim hcon with ⟨hkj, huv, hkl⟩ | ⟨hkj, hcon2⟩
    · simp at huv
    · exact h3 j l2 hcon2
  | checkFree k l0 ht ho0 =>
    refine ⟨h1, by show ni < c.nextId + 1; omega, ?_⟩
    intro j l2 hcon
    rcases getElem?_set_elim hcon with ⟨hkj, huv, hkl⟩ | ⟨hkj, hcon2⟩
    · simp only [Prod.mk.injEq, PtrPC.doCAS.injEq] at huv
      omega
    · exact h3 j l2 hcon2
  | casWin k l0 ni0 ht ho0 =>
    refine ⟨?_, h2, ?_⟩
    · intro hmem
      rcases List.mem_cons.mp hmem with hh | hh
      · exact h3 k l0 (hh ▸ ht)
      · exact h1 hh
    · intro j l2 hcon
      rcases getElem?_set_elim hcon with ⟨hkj, huv, hkl⟩ | ⟨hkj, hcon2⟩
      · simp at huv
      · exact h3 j l2 hcon2
  | casLose k l0 ni0 w ht ho0 =>
    refine ⟨h1, h2, ?_⟩
    intro j l2 hcon
    rcases getElem?_set_elim hcon with ⟨hkj, huv, hkl⟩ | ⟨hkj, hcon2⟩
    · simp at huv
    · exact h3 j l2 hcon2
  | retStep k l0 r0 ht ho0 =>
    refine ⟨h1, h2, ?_⟩
    intro j l2 hcon
    rcases getElem?_set_elim hcon with ⟨hkj, huv, hkl⟩ | ⟨hkj, hcon2⟩
    · simp at huv
    · exact h3 j l2 hcon2

theorem ptr_reach_retired {c1 c3 : PtrConf}
    (hreach : Relation.ReflTransGen PtrStep c1 c3) (ni : Nat)
    (h1 : ni ∉ c1.allNItems) (h2 : ni < c1.nextId)
    (h3 : ∀ (j l2 : Nat), c1.threads[j]? ≠ some (l2, PtrPC.doCAS ni)) :
    ni ∉ c3.allNItems ∧ ni < c3.nextId ∧
      ∀ (j l2 : Nat), c3.threads[j]? ≠ some (l2, PtrPC.doCAS ni) := by
  induction hreach with
  | refl => exact ⟨h1, h2, h3⟩
  | tail hr hstep ih => exact ptrStep_retired hstep ni ih.1 ih.2.1 ih.2.2

theorem ptrStep_track {c c2 : PtrConf} (h : PtrStep c c2) (i l w : Nat)
    (hown : c.owner l = some w)
    (hpc : c.threads[i]? = some (l, PtrPC.readRet)
      ∨ c.threads[i]? = some (l, PtrPC.done w)) :
    c2.owner l = some w ∧
      (c2.threads[i]? = some (l, PtrPC.readRet)
        ∨ c2.threads[i]? = some (l, PtrPC.done w)) := by
  refine ⟨ptrStep_owner_mono h l w hown, ?_⟩
  cases h with
  | checkOwned k l0 r0 ht ho0 =>
    by_cases hki : k = i
    · rcases hpc with hpc | hpc
      · rw [hki, hpc] at ht
        simp at ht
      · rw [hki, hpc] at ht
        simp at ht
    · rcases hpc with hpc | hpc
      · exact Or.inl (by rw [List.getElem?_set, if_neg hki]; exact hpc)
      · exact Or.inr (by rw [List.getElem?_set, if_neg hki]; exact hpc)
  | checkFree k l0 ht ho0 =>
    by_cases hki : k = i
    · rcases hpc with hpc | hpc
      · rw [hki, hpc] at ht
        simp at ht
      · rw [hki, hpc] at ht
        simp at ht
    · rcases hpc with hpc | hpc
      · exact Or.inl (by rw [List.getElem?_set, if_neg hki]; exact hpc)
      · exact Or.inr (by rw [List.getElem?_set, if_neg hki]; exact hpc)
  | casWin k l0 ni0 ht ho0 =>
    by_cases hki : k = i
    · rcases hpc with hpc | hpc
      · rw [hki, hpc] at ht
        simp at ht
      · rw [hki, hpc] at ht
        simp at ht
    · rcases hpc with hpc | hpc
      · exact Or.inl (by rw [List.getElem?_set, if_neg hki]; exact hpc)
      · exact Or.inr (by rw [List.getElem?_set, if_neg hki]; exact hpc)
  | casLose k l0 ni0 w0 ht ho0 =>
    by_cases hki : k = i
    · rcases hpc with hpc | hpc
      · rw [hki, hpc] at ht
        simp at ht
      · rw [hki, hpc] at ht
        simp at ht
    · rcases hpc with hpc | hpc
      · exact Or.inl (by rw [List.getElem?_set, if_neg hki]; exact hpc)
      · exact Or.inr (by rw [List.getElem?_set, if_neg hki]; exact hpc)
  | retStep k l0 r0 ht ho0 =>
    by_cases hki : k = i
    · rcases hpc with hpc | hpc
      · rw [hki, hpc] at ht
        have hl0 : l0 = l := by
          have := Option.some.inj ht
          exact (congrArg Prod.fst this).symm
        have hr0 : r0 = w := by
          rw [hl0] at ho0
          rw [ho0] at hown
          exact Option.some.inj hown
        refine Or.inr ?_
        rw [List.getElem?_set, if_pos hki, if_pos (hki ▸ getElem?_lt_length hpc), hl0, hr0]
      · rw [hki, hpc] at ht
        simp at ht
    · rcases hpc with hpc | hpc
      · exact Or.inl (by rw [List.getElem?_set, if_neg hki]; exact hpc)
      · exact Or.inr (by rw [List.getElem?_set, if_neg hki]; exact hpc)

theorem ptr_reach_track {c1 c3 : PtrConf}
    (hreach : Relation.ReflTransGen PtrStep c1 c3) (i l w : Nat)
    (hown : c1.owner l = some w)
    (hpc : c1.threads[i]? = some (l, PtrPC.readRet)
      ∨ c1.threads[i]? = some (l, PtrPC.done w)) :
    c3.owner l = some w ∧
      (c3.threads[i]? = some (l, PtrPC.readRet)
        ∨ c3.threads[i]? = some (l, PtrPC.done w)) := by
  induction hreach with
  | refl => exact ⟨hown, hpc⟩
  | tail hr hstep ih => exact ptrStep_track hstep i l w ih.1 ih.2

/-- C3: in the pointer-indexed manager, a getNhoodItem call that allocated a
candidate record and then loses the CAS (tryMappingTo false because l is
already owned by w) destroys the candidate (it leaves the allocator-live set),
never publishes it to allNItems (neither at the losing step nor in any later
reachable configuration), and the call ultimately returns the CAS winner's
record bound to l. -/
theorem c3_cas_loser_destroyed_never_published
    (c0 c : PtrConf) (i l ni w : Nat)
    (hinit : ∀ t ∈ c0.threads, t.2 = PtrPC.start)
    (hF1 : ∀ x ∈ c0.allNItems, x < c0.nextId)
    (hF2 : ∀ (l2 x : Nat), c0.owner l2 = some x → x < c0.nextId)
    (hreach : Relation.ReflTransGen PtrStep c0 c)
    (ht : c.threads[i]? = some (l, PtrPC.doCAS ni))
    (ho : c.owner l = some w) :
    PtrStep c { c with live := c.live.filter (fun x => x != ni),
                       threads := c.threads.set i (l, PtrPC.readRet) } ∧
    ni ∉ ({ c with live := c.live.filter (fun x => x != ni),
                   threads := c.threads.set i (l, PtrPC.readRet) } : PtrConf).live ∧
    (∀ c3 : PtrConf,
      Relation.ReflTransGen PtrStep
        { c with live := c.live.filter (fun x => x != ni),
                 threads := c.threads.set i (l, PtrPC.readRet) } c3 →
      ni ∉ c3.allNItems ∧
        ∀ r : Nat, c3.threads[i]? = some (l, PtrPC.done r) → r = w) := by
  have hfresh := ptr_reach_fresh_inv hreach hinit hF1 hF2
  rcases hfresh.2.2.1 i l ni ht with ⟨hniNext, hniAll, _⟩
  have hF4 := hfresh.2.2.2
  refine ⟨PtrStep.casLose c i l ni w ht ho, ?_, ?_⟩
  · intro hmem
    have := List.mem_filter.mp hmem
    simp at this
  · intro c3 hreach2
    have hretired := ptr_reach_retired hreach2 ni
      (by show ni ∉ c.allNItems; exact hniAll)
      (by show ni < c.nextId; exact hniNext)
      (by
        intro j l2 hcon
        show False
        rcases getElem?_set_elim hcon with ⟨hij, huv, hlt⟩ | ⟨hij, hcon2⟩
        · simp at huv
        · exact absurd rfl (hF4 j i l2 l ni ni (Ne.symm hij) hcon2 ht))
    have htrack := ptr_reach_track hreach2 i l w
      (by show c.owner l = some w; exact ho)
      (Or.inl (by
        show (c.threads.set i (l, PtrPC.readRet))[i]? = some (l, PtrPC.readRet)
        rw [List.getElem?_set, if_pos rfl, if_pos (getElem?_lt_length ht)]))
    refine ⟨hretired.1, ?_⟩
    intro r hdone
    rcases htrack.2 with hpc | hpc
    · rw [hdone] at hpc
      simp at hpc
    · rw [hdone] at hpc
      have := Option.some.inj hpc
      have h2 := congrArg Prod.snd this
      simp at h2
      exact h2

theorem c3_witness :
    (0 : Nat) ∉ [1, 0].filter (fun x => x != 0) ∧ (0 : Nat) ∉ ([1] : List Nat) := by
  have hmain := c3_cas_loser_destroyed_never_published
    { owner := fun _ => Option.none, allNItems := [], live := [], nextId := 0,
      threads := [(5, PtrPC.start), (5, PtrPC.start)] }
    { owner := fun x => if x = 5 then some 1 else Option.none, allNItems := [1],
      live := [1, 0], nextId := 2,
      threads := [(5, PtrPC.doCAS 0), (5, PtrPC.readRet)] }
    0 5 0 1
    (by decide)
    (by intro x hx; simp at hx)
    (by intro l2 x hx; simp at hx)
    (Relation.ReflTransGen.tail
      (Relation.ReflTransGen.tail
        (Relation.ReflTransGen.tail Relation.ReflTransGen.refl
          (PtrStep.checkFree _ 0 5 rfl rfl))
        (PtrStep.checkFree _ 1 5 rfl rfl))
      (PtrStep.casWin _ 1 5 1 rfl rfl))
    rfl rfl
  exact ⟨hmain.2.1, (hmain.2.2 _ Relation.ReflTransGen.refl).1⟩

theorem ptr_reset_foldl_live (items : List (Nat × Nat)) :
    ∀ (t : PtrSeqMgr) (x : Nat),
      x ∈ (items.foldl (fun t p =>
          { t with owner := fun y => if y = p.2 then Option.none else t.owner y,
                   live := t.live.filter (fun y => y != p.1) }) t).live
      ↔ x ∈ t.live ∧ ∀ p ∈ items, x ≠ p.1 := by
  induction items with
  | nil =>
    intro t x
    simp
  | cons q qs ih =>
    intro t x
    rw [List.foldl_cons, ih]
    constructor
    · rintro ⟨hmem, hall⟩
      have hmem2 := List.mem_filter.mp hmem
      have hxq : x ≠ q.1 := by simpa using hmem2.2
      exact ⟨hmem2.1, by
        intro p hp
        rcases List.mem_cons.mp hp with rfl | hp2
        · exact hxq
        · exact hall p hp2⟩
    · rintro ⟨hmem, hall⟩
      refine ⟨List.mem_filter.mpr ⟨hmem, ?_⟩, ?_⟩
      · simpa using hall q (List.mem_cons_self q qs)
      · intro p hp
        exact hall p (List.mem_cons_of_mem q hp)

theorem ptr_reset_foldl_owner_none (items : List (Nat × Nat)) :
    ∀ (t : PtrSeqMgr) (l : Nat), t.owner l = Option.none →
      (items.foldl (fun t p =>
          { t with owner := fun y => if y = p.2 then Option.none else t.owner y,
                   live := t.live.filter (fun y => y != p.1) }) t).owner l = Option.none := by
  induction items with
  | nil => intro t l h; exact h
  | cons q qs ih =>
    intro t l h
    rw [List.foldl_cons]
    apply ih
    show (fun y => if y = q.2 then Option.none else t.owner y) l = Option.none
    by_cases hl : l = q.2
    · simp [hl]
    · simp only [if_neg hl]
      exact h

theorem ptr_reset_foldl_owner_cleared (items : List (Nat × Nat)) :
    ∀ (t : PtrSeqMgr) (p : Nat × Nat), p ∈ items →
      (items.foldl (fun t p =>
          { t with owner := fun y => if y = p.2 then Option.none else t.owner y,
                   live := t.live.filter (fun y => y != p.1) }) t).owner p.2 = Option.none := by
  induction items with
  | nil =>
    intro t p hp
    exact absurd hp (List.not_mem_nil p)
  | cons q qs ih =>
    intro t p hp
    rw [List.foldl_cons]
    rcases List.mem_cons.mp hp with rfl | hp2
    · apply ptr_reset_foldl_owner_none
      show (fun y => if y = p.2 then Option.none else t.owner y) p.2 = Option.none
      simp
    · exact ih _ p hp2

theorem ptr_reset_foldl_fields (items : List (Nat × Nat)) :
    ∀ (t : PtrSeqMgr),
      (items.foldl (fun t p =>
          { t with owner := fun y => if y = p.2 then Option.none else t.owner y,
                   live := t.live.filter (fun y => y != p.1) }) t).claimant = t.claimant ∧
      (items.foldl (fun t p =>
          { t with owner := fun y => if y = p.2 then Option.none else t.owner y,
                   live := t.live.filter (fun y => y != p.1) }) t).allNItems = t.allNItems ∧
      (items.foldl (fun t p =>
          { t with owner := fun y => if y = p.2 then Option.none else t.owner y,
                   live := t.live.filter (fun y => y != p.1) }) t).nextId = t.nextId := by
  induction items with
  | nil => intro t; exact ⟨rfl, rfl, rfl⟩
  | cons q qs ih => intro t; exact ih _

theorem map_reset_foldl_live (items : List (Nat × Nat)) :
    ∀ (t : MapSeqMgr) (x : Nat),
      x ∈ (items.foldl (fun t p =>
          { t with live := t.live.filter (fun y => y != p.1) }) t).live
      ↔ x ∈ t.live ∧ ∀ p ∈ items, x ≠ p.1 := by
  induction items with
  | nil =>
    intro t x
    simp
  | cons q qs ih =>
    intro t x
    rw [List.foldl_cons, ih]
    constructor
    · rintro ⟨hmem, hall⟩
      have hmem2 := List.mem_filter.mp hmem
      have hxq : x ≠ q.1 := by simpa using hmem2.2
      exact ⟨hmem2.1, by
        intro p hp
        rcases List.mem_cons.mp hp with rfl | hp2
        · exact hxq
        · exact hall p hp2⟩
    · rintro ⟨hmem, hall⟩
      refine ⟨List.mem_filter.mpr ⟨hmem, ?_⟩, ?_⟩
      · simpa using hall q (List.mem_cons_self q qs)
      · intro p hp
        exact hall p (List.mem_cons_of_mem q hp)

theorem map_reset_foldl_fields (items : List (Nat × Nat)) :
    ∀ (t : MapSeqMgr),
      (items.foldl (fun t p =>
          { t with live := t.live.filter (fun y => y != p.1) }) t).nhoodMap = t.nhoodMap ∧
      (items.foldl (fun t p =>
          { t with live := t.live.filter (fun y => y != p.1) }) t).claimant = t.claimant ∧
      (items.foldl (fun t p =>
          { t with live := t.live.filter (fun y => y != p.1) }) t).nextId = t.nextId := by
  induction items with
  | nil => intro t; exact ⟨rfl, rfl, rfl⟩
  | cons q qs ih => intro t; exact ih _

theorem getNhoodItem_miss (s : PtrSeqMgr) (r : Nat) (hr : s.owner r = Option.none) :
    s.getNhoodItem r = (s.nextId,
      { owner := fun x => if x = r then some s.nextId else s.owner x,
        claimant := fun j => if j = s.nextId then Option.none else s.claimant j,
        live := s.nextId :: s.live,
        allNItems := (s.nextId, r) :: s.allNItems,
        nextId := s.nextId + 1 }) := by
  unfold PtrSeqMgr.getNhoodItem
  rw [hr]

theorem tryClaim_fields (s : PtrSeqMgr) (ni ctx : Nat) :
    (s.tryClaim ni ctx).2.owner = s.owner ∧
    (s.tryClaim ni ctx).2.live = s.live ∧
    (s.tryClaim ni ctx).2.allNItems = s.allNItems ∧
    (s.tryClaim ni ctx).2.nextId = s.nextId := by
  unfold PtrSeqMgr.tryClaim
  rcases hc : s.claimant ni with _ | v
  · exact ⟨rfl, rfl, rfl, rfl⟩
  · exact ⟨rfl, rfl, rfl, rfl⟩

theorem releaseRecord_fields (s : PtrSeqMgr) (ni : Nat) :
    (s.releaseRecord ni).owner = s.owner ∧
    (s.releaseRecord ni).live = s.live ∧
    (s.releaseRecord ni).allNItems = s.allNItems ∧
    (s.releaseRecord ni).nextId = s.nextId :=
  ⟨rfl, rfl, rfl, rfl⟩

theorem mapGetNhoodItem_miss (m : MapSeqMgr) (r : Nat)
    (hmr : m.nhoodMap.lookup r = Option.none) :
    m.getNhoodItem r = (m.nextId,
      { nhoodMap := (r, m.nextId) :: m.nhoodMap,
        claimant := fun j => if j = m.nextId then Option.none else m.claimant j,
        live := m.nextId :: m.live,
        allNItems := (m.nextId, r) :: m.allNItems,
        nextId := m.nextId + 1 }) := by
  unfold MapSeqMgr.getNhoodItem
  rw [hmr]

theorem mapTryClaim_fields (m : MapSeqMgr) (ni ctx : Nat) :
    (m.tryClaim ni ctx).2.nhoodMap = m.nhoodMap ∧
    (m.tryClaim ni ctx).2.live = m.live ∧
    (m.tryClaim ni ctx).2.allNItems = m.allNItems ∧
    (m.tryClaim ni ctx).2.nextId = m.nextId := by
  unfold MapSeqMgr.tryClaim
  rcases hc : m.claimant ni with _ | v
  · exact ⟨rfl, rfl, rfl, rfl⟩
  · exact ⟨rfl, rfl, rfl, rfl⟩

theorem mapReleaseRecord_fields (m : MapSeqMgr) (ni : Nat) :
    (m.releaseRecord ni).nhoodMap = m.nhoodMap ∧
    (m.releaseRecord ni).live = m.live ∧
    (m.releaseRecord ni).allNItems = m.allNItems ∧
    (m.releaseRecord ni).nextId = m.nextId :=
  ⟨rfl, rfl, rfl, rfl⟩

theorem ptr_reset_props (t3 : PtrSeqMgr) (nid r : Nat) (rest : List (Nat × Nat))
    (sowner : Nat → Option Nat) (slive : List Nat)
    (hall3 : t3.allNItems = (nid, r) :: rest)
    (howner3 : t3.owner = fun x => if x = r then some nid else sowner x)
    (hlive3 : t3.live = nid :: slive)
    (hlive : ∀ x ∈ slive, ∃ l, (x, l) ∈ rest)
    (hown : ∀ (l x : Nat), sowner l = some x → (x, l) ∈ rest) :
    (∀ l : Nat, t3.resetAllNItems.owner l = Option.none) ∧
    t3.resetAllNItems.live = [] := by
  have hreset : t3.resetAllNItems = ((nid, r) :: rest).foldl
      (fun t p => { t with owner := fun y => if y = p.2 then Option.none else t.owner y,
                           live := t.live.filter (fun y => y != p.1) }) t3 := by
    show t3.allNItems.foldl
      (fun t p => { t with owner := fun y => if y = p.2 then Option.none else t.owner y,
                           live := t.live.filter (fun y => y != p.1) }) t3 = _
    rw [hall3]
  constructor
  · intro l
    rw [hreset]
    by_cases hl : l = r
    · rw [hl]
      exact ptr_reset_foldl_owner_cleared _ t3 (nid, r) (List.mem_cons_self _ _)
    · rcases hso : sowner l with _ | x
      · apply ptr_reset_foldl_owner_none
        rw [howner3]
        simp [hl, hso]
      · have hmem : (x, l) ∈ (nid, r) :: rest := List.mem_cons_of_mem _ (hown l x hso)
        exact ptr_reset_foldl_owner_cleared _ t3 (x, l) hmem
  · rw [hreset]
    apply List.eq_nil_iff_forall_not_mem.mpr
    intro x hx
    rcases (ptr_reset_foldl_live _ t3 x).mp hx with ⟨hmem, hall⟩
    rw [hlive3] at hmem
    rcases List.mem_cons.mp hmem with rfl | hmem2
    · exact hall (x, r) (List.mem_cons_self _ _) rfl
    · rcases hlive x hmem2 with ⟨l, hml⟩
      exact hall (x, l) (List.mem_cons_of_mem _ hml) rfl

theorem map_reset_props (t3 : MapSeqMgr) (nid r : Nat) (rest : List (Nat × Nat))
    (slive : List Nat)
    (hall3 : t3.allNItems = (nid, r) :: rest)
    (hlive3 : t3.live = nid :: slive)
    (hlive : ∀ x ∈ slive, ∃ l, (x, l) ∈ rest) :
    t3.resetAllNItems.live = [] := by
  have hreset : t3.resetAllNItems = ((nid, r) :: rest).foldl
      (fun t p => { t with live := t.live.filter (fun y => y != p.1) }) t3 := by
    show t3.allNItems.foldl
      (fun t p => { t with live := t.live.filter (fun y => y != p.1) }) t3 = _
    rw [hall3]
  rw [hreset]
  apply List.eq_nil_iff_forall_not_mem.mpr
  intro x hx
  rcases (map_reset_foldl_live _ t3 x).mp hx with ⟨hmem, hall⟩
  rw [hlive3] at hmem
  rcases List.mem_cons.mp hmem with rfl | hmem2
  · exact hall (x, r) (List.mem_cons_self _ _) rfl
  · rcases hlive x hmem2 with ⟨l, hml⟩
    exact hall (x, l) (List.mem_cons_of_mem _ hml) rfl

theorem mapReset_nhoodMap (t : MapSeqMgr) : t.resetAllNItems.nhoodMap = t.nhoodMap :=
  (map_reset_foldl_fields t.allNItems t).1

/-- C4 (corrected): for a resource r first claimed and then released: in the
pointer-indexed manager, reset releases every lockable's owner binding and
returns every record to the allocator, and a post-reset getNhoodItem(r)
returns a freshly created live record whose claiming context is none; in the
map-indexed manager, reset destroys the records but never clears the address
map, so the post-reset getNhoodItem(r) returns the pre-reset record, which is
no longer live. -/
theorem c4_reset_then_get_behavior (s : PtrSeqMgr) (m : MapSeqMgr) (r ctx : Nat)
    (hr : s.owner r = Option.none)
    (hlive : ∀ x ∈ s.live, ∃ l, (x, l) ∈ s.allNItems)
    (hown : ∀ (l x : Nat), s.owner l = some x → (x, l) ∈ s.allNItems)
    (hmr : m.nhoodMap.lookup r = Option.none)
    (hmlive : ∀ x ∈ m.live, ∃ l, (x, l) ∈ m.allNItems) :
    ((∀ l : Nat, (ptrAfterReset s r ctx).owner l = Option.none) ∧
     (ptrAfterReset s r ctx).live = [] ∧
     (ptrResetScenario s r ctx).1 ∈ (ptrResetScenario s r ctx).2.live ∧
     (ptrResetScenario s r ctx).2.claimant (ptrResetScenario s r ctx).1 = Option.none) ∧
    ((mapResetScenario m r ctx).1 = (m.getNhoodItem r).1 ∧
     (mapResetScenario m r ctx).1 ∉ (mapResetScenario m r ctx).2.live) := by
  have h1 := getNhoodItem_miss s r hr
  constructor
  · have hall3 : (((s.getNhoodItem r).2.tryClaim (s.getNhoodItem r).1 ctx).2.releaseRecord
        (s.getNhoodItem r).1).allNItems = (s.nextId, r) :: s.allNItems := by
      rw [(releaseRecord_fields _ _).2.2.1, (tryClaim_fields _ _ _).2.2.1, h1]
    have howner3 : (((s.getNhoodItem r).2.tryClaim (s.getNhoodItem r).1 ctx).2.releaseRecord
        (s.getNhoodItem r).1).owner = fun x => if x = r then some s.nextId else s.owner x := by
      rw [(releaseRecord_fields _ _).1, (tryClaim_fields _ _ _).1, h1]
    have hlive3 : (((s.getNhoodItem r).2.tryClaim (s.getNhoodItem r).1 ctx).2.releaseRecord
        (s.getNhoodItem r).1).live = s.nextId :: s.live := by
      rw [(releaseRecord_fields _ _).2.1, (tryClaim_fields _ _ _).2.1, h1]
    have hprops := ptr_reset_props _ s.nextId r s.allNItems s.owner s.live
      hall3 howner3 hlive3 hlive hown
    have hafter : ptrAfterReset s r ctx
        = (((s.getNhoodItem r).2.tryClaim (s.getNhoodItem r).1 ctx).2.releaseRecord
            (s.getNhoodItem r).1).resetAllNItems := rfl
    have hor : (ptrAfterReset s r ctx).owner r = Option.none := by
      rw [hafter]
      exact hprops.1 r
    have h5 := getNhoodItem_miss (ptrAfterReset s r ctx) r hor
    refine ⟨?_, ?_, ?_, ?_⟩
    · intro l
      rw [hafter]
      exact hprops.1 l
    · rw [hafter]
      exact hprops.2
    · show ((ptrAfterReset s r ctx).getNhoodItem r).1
        ∈ ((ptrAfterReset s r ctx).getNhoodItem r).2.live
      rw [h5]
      exact List.mem_cons_self _ _
    · show ((ptrAfterReset s r ctx).getNhoodItem r).2.claimant
        ((ptrAfterReset s r ctx).getNhoodItem r).1 = Option.none
      rw [h5]
      simp
  · have hm1 := mapGetNhoodItem_miss m r hmr
    have hall3m : (((m.getNhoodItem r).2.tryClaim (m.getNhoodItem r).1 ctx).2.releaseRecord
        (m.getNhoodItem r).1).allNItems = (m.nextId, r) :: m.allNItems := by
      rw [(mapReleaseRecord_fields _ _).2.2.1, (mapTryClaim_fields _ _ _).2.2.1, hm1]
    have hlive3m : (((m.getNhoodItem r).2.tryClaim (m.getNhoodItem r).1 ctx).2.releaseRecord
        (m.getNhoodItem r).1).live = m.nextId :: m.live := by
      rw [(mapReleaseRecord_fields _ _).2.1, (mapTryClaim_fields _ _ _).2.1, hm1]
    have hmap3 : (((m.getNhoodItem r).2.tryClaim (m.getNhoodItem r).1 ctx).2.releaseRecord
        (m.getNhoodItem r).1).nhoodMap = (r, m.nextId) :: m.nhoodMap := by
      rw [(mapReleaseRecord_fields _ _).1, (mapTryClaim_fields _ _ _).1, hm1]
    have hP2m := map_reset_props _ m.nextId r m.allNItems m.live hall3m hlive3m hmlive
    have hafterm : mapAfterReset m r ctx
        = (((m.getNhoodItem r).2.tryClaim (m.getNhoodItem r).1 ctx).2.releaseRecord
            (m.getNhoodItem r).1).resetAllNItems := rfl
    have hmap4 : (mapAfterReset m r ctx).nhoodMap = (r, m.nextId) :: m.nhoodMap := by
      rw [hafterm, mapReset_nhoodMap, hmap3]
    have hlook : (mapAfterReset m r ctx).nhoodMap.lookup r = some m.nextId := by
      rw [hmap4]
      simp [List.lookup]
    have hhit : (mapAfterReset m r ctx).getNhoodItem r = (m.nextId, mapAfterReset m r ctx) := by
      unfold MapSeqMgr.getNhoodItem
      rw [hlook]
    constructor
    · show ((mapAfterReset m r ctx).getNhoodItem r).1 = (m.getNhoodItem r).1
      rw [hhit, hm1]
    · show ((mapAfterReset m r ctx).getNhoodItem r).1
        ∉ ((mapAfterReset m r ctx).getNhoodItem r).2.live
      rw [hhit]
      show m.nextId ∉ (mapAfterReset m r ctx).live
      rw [hafterm, hP2m]
      simp

/-- C4 counterexample: on the map-indexed manager, create the record for
resource 5 (it gets id 0), claim it from context 7, release it, reset, then
call getNhoodItem(5) again: the call returns the original record 0, which the
reset already destroyed and which is not in the allocator-live set — not a
live record, contradicting the claim for the map-indexed variant. -/
theorem c4_map_reset_returns_destroyed_record :
    (mapResetScenario initMapMgr 5 7).1 = (initMapMgr.getNhoodItem 5).1 ∧
    (mapResetScenario initMapMgr 5 7).1 ∉ (mapResetScenario initMapMgr 5 7).2.live := by
  decide

theorem c4_witness :
    (ptrResetScenario initPtrMgr 5 7).1 ∈ (ptrResetScenario initPtrMgr 5 7).2.live ∧
    (ptrResetScenario initPtrMgr 5 7).2.claimant (ptrResetScenario initPtrMgr 5 7).1
      = Option.none ∧
    (mapResetScenario initMapMgr 5 7).1 ∉ (mapResetScenario initMapMgr 5 7).2.live := by
  have hmain := c4_reset_then_get_behavior initPtrMgr initMapMgr 5 7
    rfl
    (by intro x hx; simp [initPtrMgr] at hx)
    (by intro l x hx; simp [initPtrMgr] at hx)
    rfl
    (by intro x hx; simp [initMapMgr] at hx)
  exact ⟨hmain.1.2.2.1, hmain.1.2.2.2, hmain.2.2⟩
